import Mathlib

/-!
# csv-analyzer: type assertion, truthiness and header detection

A shallow embedding of `src/main.go` (package `main`).

Modelling conventions.

* Go `string` values are modelled by Lean `String` (a sequence of Unicode
  code points, that is, well-formed UTF-8 text). `len` is the UTF-8 byte
  length. Indexing a byte and converting it with `string(v[i])` is only ever
  compared against a one-byte ASCII string in the source, so the first and
  last byte tests are modelled on the first and last code point.
* A Go run-time panic (index out of range) is the `Except.error` side of
  `Except Panic`; a Go `error` return value is an `Option GoError` next to
  the result, as in the source signature `(TypeAssert, error)`.
* `int` is 64 bits wide (`strconv.IntSize = 64`).
* `float64` values are modelled exactly: a finite value is a sign, a natural
  mantissa and a binary exponent. `strconv.ParseFloat` is modelled by its
  documented contract (accepted syntax, nearest value with ties to even,
  `ErrRange` on overflow), `fmt.Sprintf("%f", v)` by the exact decimal
  expansion rounded half-to-even at six fractional digits.
-/

namespace CsvAnalyzer

/-! ## Go run-time outcomes -/

/-- Run-time panics raised by the embedded code. -/
inductive Panic where
  | indexOutOfRange
  deriving DecidableEq, Repr

/-- The two `strconv.NumError` causes. -/
inductive GoError where
  | errSyntax
  | errRange
  deriving DecidableEq, Repr

deriving instance DecidableEq for Except

/-! ## Characters and digits -/

/-- ASCII decimal digit test, as in `'0' <= c && c <= '9'`. -/
def isDigit (c : Char) : Bool := 48 ≤ c.toNat && c.toNat ≤ 57

/-- Numeric value of an ASCII decimal digit, `c - '0'`. -/
def digitVal (c : Char) : Nat := c.toNat - 48

/-- The ASCII digit character of `d % 10`. -/
def digitChar (d : Nat) : Char :=
  match d % 10 with
  | 0 => '0' | 1 => '1' | 2 => '2' | 3 => '3' | 4 => '4'
  | 5 => '5' | 6 => '6' | 7 => '7' | 8 => '8' | _ => '9'

/-- Value of a sequence of decimal digits, most significant first, on top of
an accumulator (`n = n*10 + d` in the strconv loops). -/
def digitsValue (acc : Nat) : List Char → Nat
  | [] => acc
  | c :: cs => digitsValue (acc * 10 + digitVal c) cs

/-- Decimal digits of `n`, most significant first, prepended to `acc`; `fuel`
bounds the number of digits produced. -/
def natDigitsAux : Nat → Nat → List Char → List Char
  | 0, _, acc => acc
  | fuel + 1, n, acc =>
    if n < 10 then digitChar n :: acc
    else natDigitsAux fuel (n / 10) (digitChar (n % 10) :: acc)

/-- Decimal digits of a natural number (`strconv.FormatUint(n, 10)`). -/
def natDigits (n : Nat) : List Char := natDigitsAux (n + 1) n []

/-- Rendering of an integer by `fmt.Sprintf("%d", v)` / `strconv.Itoa`. -/
def formatInt (n : Int) : String :=
  match n with
  | Int.ofNat m => String.mk (natDigits m)
  | Int.negSucc m => String.mk ('-' :: natDigits (m + 1))

/-! ## strconv.ParseInt / strconv.Atoi -/

/-- The digit loop of `strconv.ParseUint(s, 10, 64)` with the running
value `n`: a character that is not a decimal digit is a syntax error (a
letter is a digit of value 10 or more, not below the base), and the value
leaving 64 bits is a range error, reported where it happens. -/
def parseUintLoop : List Char → Nat → Except GoError Nat
  | [], n => .ok n
  | c :: cs, n =>
    if !isDigit c then .error .errSyntax
    else if n ≥ (2 ^ 64 - 1) / 10 + 1 then .error .errRange
    else if n * 10 + digitVal c > 2 ^ 64 - 1 then .error .errRange
    else parseUintLoop cs (n * 10 + digitVal c)

/-- Model of `strconv.ParseUint(s, 10, 64)`: base 10 is given, so there is
no base prefix and no underscore. -/
def ParseUint (s : List Char) : Except GoError Nat :=
  if s = [] then .error .errSyntax else parseUintLoop s 0

/-- Model of `strconv.ParseInt(s, 10, 64)`: optional sign, then `ParseUint`
(whose range error comes with `maxVal`, which fails the cutoff test too),
then the cutoff test against `1 << 63`. -/
def ParseInt (s : String) : Except GoError Int :=
  match s.data with
  | [] => .error .errSyntax
  | c :: rest =>
    let neg := c == '-'
    let body := if c == '+' || c == '-' then rest else c :: rest
    match ParseUint body with
    | .error e => .error e
    | .ok un =>
      let cutoff : Nat := 2 ^ 63
      if !neg && un ≥ cutoff then .error .errRange
      else if neg && un > cutoff then .error .errRange
      else .ok (if neg then -(un : Int) else (un : Int))

/-- Model of `strconv.Atoi` with a 64-bit `int`. -/
def Atoi (s : String) : Except GoError Int := ParseInt s

/-! ## float64 values, strconv.ParseFloat and the %f verb -/

/-- A `float64` value: a finite value is `(-1)^neg * mant * 2^exp`. -/
inductive Float64 where
  | finite (neg : Bool) (mant : Nat) (exp : Int)
  | inf (neg : Bool)
  | nan
  deriving DecidableEq, Repr

/-- The comparison `value == 0.0` (true for both zeros, false for NaN). -/
def Float64.isZero : Float64 → Bool
  | .finite _ m _ => m == 0
  | _ => false

/-- The comparison `value == 1.0`. -/
def Float64.isOne : Float64 → Bool
  | .finite false m e => m * 2 ^ e.toNat == 2 ^ (-e).toNat
  | _ => false

/-- Quotient `n / d` rounded to the nearest integer, ties to even. -/
def roundHalfEven (n d : Nat) : Nat :=
  let q := n / d
  let r := n % d
  if 2 * r < d then q
  else if d < 2 * r then q + 1
  else if q % 2 = 0 then q else q + 1

/-- Number of binary digits of `n`, by repeated halving. -/
def bitLenAux : Nat → Nat → Nat
  | 0, _ => 0
  | fuel + 1, n => if n = 0 then 0 else bitLenAux fuel (n / 2) + 1

/-- Number of binary digits of `n` (0 for 0). -/
def bitLen (n : Nat) : Nat := bitLenAux n n

/-- The `float64` nearest to the positive rational `n / d` (`0 < n`,
`0 < d`), ties to even, as mantissa and binary exponent with the mantissa
below `2^53` and the exponent at least `-1074`; `none` when the rounded
value exceeds the largest finite `float64` (exponent above 971). -/
def nearestFloat64 (n d : Nat) : Option (Nat × Int) :=
  let l : Int := (bitLen n : Int) - (bitLen d : Int)
  let ge : Bool := decide (d * 2 ^ l.toNat ≤ n * 2 ^ (-l).toNat)
  let fl : Int := if ge then l else l - 1
  let e : Int := max (fl - 52) (-1074)
  let q := roundHalfEven (n * 2 ^ (-e).toNat) (d * 2 ^ e.toNat)
  let r : Nat × Int := if q = 2 ^ 53 then (2 ^ 52, e + 1) else (q, e)
  if r.2 > 971 then none else some r

/-- Rounding of the exact value `(-1)^neg * n / d` to `float64`:
`ErrRange` on overflow, a signed zero when `n = 0`. -/
def toFloat64 (neg : Bool) (n d : Nat) : Except GoError Float64 :=
  if n = 0 then .ok (.finite neg 0 0)
  else match nearestFloat64 n d with
    | none => .error .errRange
    | some (m, e) => .ok (.finite neg m e)

/-- ASCII lower-casing used by `commonPrefixLenIgnoreCase`. -/
def lowerASCII (c : Char) : Char :=
  if 65 ≤ c.toNat ∧ c.toNat ≤ 90 then Char.ofNat (c.toNat + 32) else c

/-- Embedding of strconv `commonPrefixLenIgnoreCase`; `pre` is lower-case. -/
def commonPrefixLenIgnoreCase : List Char → List Char → Nat
  | c :: s, p :: pre => if lowerASCII c = p then commonPrefixLenIgnoreCase s pre + 1 else 0
  | _, _ => 0

/-- The "inf"/"infinity" arm of strconv `special`, entered directly or by
fallthrough after a sign (`nsign` characters). -/
def specialInf (neg : Bool) (nsign : Nat) (s : List Char) : Option (Float64 × Nat) :=
  let n := commonPrefixLenIgnoreCase s "infinity".data
  let n := if 3 < n ∧ n < 8 then 3 else n
  if n = 3 ∨ n = 8 then some (.inf neg, nsign + n) else none

/-- Embedding of strconv `special`: infinities and NaN, with the number of
characters consumed. -/
def special (s : List Char) : Option (Float64 × Nat) :=
  match s with
  | [] => none
  | c :: rest =>
    if c = '+' ∨ c = '-' then specialInf (c == '-') 1 rest
    else if c = 'i' ∨ c = 'I' then specialInf false 0 s
    else if c = 'n' ∨ c = 'N' then
      if commonPrefixLenIgnoreCase s "nan".data = 3 then some (.nan, 3) else none
    else none

/-- State of the mantissa loop of strconv `readFloat`; the mantissa keeps
every digit (strconv keeps 19 and a truncation flag, then falls back to an
exact conversion when they do not decide the rounding). -/
structure MantScan where
  sawdot : Bool := false
  sawdigits : Bool := false
  nd : Nat := 0
  dp : Int := 0
  mantissa : Nat := 0
  underscores : Bool := false
  deriving DecidableEq, Repr

/-- Hexadecimal letter test, `'a' <= lower(c) && lower(c) <= 'f'`. -/
def isHexLetter (c : Char) : Bool :=
  (97 ≤ c.toNat && c.toNat ≤ 102) || (65 ≤ c.toNat && c.toNat ≤ 70)

/-- Value of a hexadecimal letter, `lower(c) - 'a' + 10`. -/
def hexLetterVal (c : Char) : Nat :=
  if 97 ≤ c.toNat then c.toNat - 97 + 10 else c.toNat - 65 + 10

/-- The mantissa loop of `readFloat`: returns the final state and the
unread rest of the text. -/
def scanMantissa (hex : Bool) : List Char → MantScan → MantScan × List Char
  | [], st => (st, [])
  | c :: cs, st =>
    if c = '_' then scanMantissa hex cs { st with underscores := true }
    else if c = '.' then
      if st.sawdot then (st, c :: cs)
      else scanMantissa hex cs { st with sawdot := true, dp := st.nd }
    else if isDigit c then
      if c = '0' ∧ st.nd = 0 then
        scanMantissa hex cs { st with sawdigits := true, dp := st.dp - 1 }
      else
        let m := st.mantissa * (if hex then 16 else 10) + digitVal c
        scanMantissa hex cs { st with sawdigits := true, nd := st.nd + 1, mantissa := m }
    else if hex ∧ isHexLetter c then
      let m := st.mantissa * 16 + hexLetterVal c
      scanMantissa hex cs { st with sawdigits := true, nd := st.nd + 1, mantissa := m }
    else (st, c :: cs)

/-- The exponent digit loop of `readFloat`: digits and underscores, the
running exponent frozen once it reaches 10000. Returns the exponent, whether
an underscore was seen, and the unread rest. -/
def scanExponent : List Char → Nat → Bool → Nat × Bool × List Char
  | [], e, u => (e, u, [])
  | c :: cs, e, u =>
    if c = '_' then scanExponent cs e true
    else if isDigit c then scanExponent cs (if e < 10000 then e * 10 + digitVal c else e) u
    else (e, u, c :: cs)

/-- Embedding of strconv `underscoreOK`, run on the characters after the
optional sign: `saw` is the class of the previous character. -/
def underscoreScan (hex : Bool) : List Char → Char → Bool
  | [], saw => saw != '_'
  | c :: cs, saw =>
    if isDigit c ∨ (hex ∧ isHexLetter c) then underscoreScan hex cs '0'
    else if c = '_' then
      if saw != '0' then false else underscoreScan hex cs '_'
    else if saw == '_' then false
    else underscoreScan hex cs '!'

/-- Embedding of strconv `underscoreOK`. -/
def underscoreOK (s : List Char) : Bool :=
  let s := match s with
    | c :: rest => if c = '-' ∨ c = '+' then rest else s
    | [] => s
  match s with
  | a :: b :: rest =>
    if a = '0' ∧ (b = 'b' ∨ b = 'B' ∨ b = 'o' ∨ b = 'O' ∨ b = 'x' ∨ b = 'X') then
      underscoreScan (b = 'x' ∨ b = 'X') rest '0'
    else underscoreScan false s '^'
  | _ => underscoreScan false s '^'

/-- Result of `readFloat`: sign, base, exact mantissa, exponent of the base
(10, or 2 for hexadecimal), and the unread rest of the text. -/
structure ReadFloat where
  neg : Bool
  hex : Bool
  mantissa : Nat
  exp : Int
  rest : List Char
  deriving DecidableEq, Repr

/-- The base prefix test of `readFloat`,
`i+2 < len(s) && s[i] == '0' && lower(s[i+1]) == 'x'`: at least one
character has to follow "0x". -/
def hexPrefix (body : List Char) : Bool :=
  match body with
  | a :: b :: _ :: _ => a == '0' && (b == 'x' || b == 'X')
  | _ => false

/-- The exponent character test of `readFloat`, `lower(s[i]) == expChar`. -/
def isExpChar (hex : Bool) (x : Char) : Bool :=
  if hex then x == 'p' || x == 'P' else x == 'e' || x == 'E'

/-- The end of `readFloat`: the exponent `dp - ndMant` of a non-zero
mantissa, and the `underscoreOK` test of the consumed text `s[:i]`. -/
def readFloatFinish (s : List Char) (neg hex : Bool) (st : MantScan) (dp : Int)
    (underscores : Bool) (r : List Char) : Option ReadFloat :=
  let nd : Int := if hex then st.nd * 4 else st.nd
  if underscores && !underscoreOK (s.take (s.length - r.length)) then none
  else some ⟨neg, hex, st.mantissa, if st.mantissa = 0 then 0 else dp - nd, r⟩

/-- The optional exponent of `readFloat`, read from the rest `r1` left by the
mantissa loop; a hexadecimal mantissa must have one. -/
def readFloatExponent (s : List Char) (neg hex : Bool) (st : MantScan) (dp : Int)
    (r1 : List Char) : Option ReadFloat :=
  match r1 with
  | x :: r2 =>
    if isExpChar hex x then
      match r2 with
      | [] => none
      | y :: r3 =>
        let esign : Int := if y = '-' then -1 else 1
        let r4 := if y = '+' ∨ y = '-' then r3 else r2
        match r4 with
        | [] => none
        | z :: _ =>
          if !isDigit z then none
          else
            let scan := scanExponent r4 0 st.underscores
            readFloatFinish s neg hex st (dp + scan.1 * esign) scan.2.1 scan.2.2
    else if hex then none
    else readFloatFinish s neg hex st dp st.underscores r1
  | [] => if hex then none else readFloatFinish s neg hex st dp st.underscores r1

/-- Embedding of strconv `readFloat`; `none` is `ok = false`. -/
def readFloat (s : List Char) : Option ReadFloat :=
  match s with
  | [] => none
  | c :: rest =>
    let neg := c == '-'
    let body := if c = '+' ∨ c = '-' then rest else s
    let hex := hexPrefix body
    let digits := if hex then body.drop 2 else body
    let scan := scanMantissa hex digits {}
    if !scan.1.sawdigits then none
    else
      let dp : Int := if scan.1.sawdot then scan.1.dp else scan.1.nd
      readFloatExponent s neg hex scan.1 (if hex then dp * 4 else dp) scan.2

/-- Model of `strconv.ParseFloat(s, 64)`: the special values, then
`readFloat`, the whole text having to be consumed, then the nearest
`float64` with `ErrRange` on overflow. -/
def ParseFloat (s : String) : Except GoError Float64 :=
  let cs := s.data
  match special cs with
  | some (f, n) => if n = cs.length then .ok f else .error .errSyntax
  | none =>
    match readFloat cs with
    | none => .error .errSyntax
    | some r =>
      if r.rest ≠ [] then .error .errSyntax
      else
        let base : Nat := if r.hex then 2 else 10
        if 0 ≤ r.exp then toFloat64 r.neg (r.mantissa * base ^ r.exp.toNat) 1
        else toFloat64 r.neg r.mantissa (base ^ (-r.exp).toNat)

/-- Six decimal digits of `x % 10^6`, with leading zeros. -/
def pad6 (x : Nat) : List Char :=
  [digitChar (x / 100000), digitChar (x / 10000), digitChar (x / 1000),
   digitChar (x / 100), digitChar (x / 10), digitChar x]

/-- Rendering of a `float64` by `fmt.Sprintf("%f", v)`: the exact value
rounded half-to-even at six fractional digits. -/
def formatF (f : Float64) : String :=
  match f with
  | .nan => "NaN"
  | .inf false => "+Inf"
  | .inf true => "-Inf"
  | .finite neg m e =>
    let scaled :=
      if 0 ≤ e then m * 2 ^ e.toNat * 10 ^ 6
      else roundHalfEven (m * 10 ^ 6) (2 ^ (-e).toNat)
    String.mk ((if neg then ['-'] else []) ++ natDigits (scaled / 10 ^ 6) ++
      '.' :: pad6 (scaled % 10 ^ 6))

/-- Embedding of `IsTruthyFloat`. -/
def IsTruthyFloat (value : Float64) : Bool × Bool :=
  if value.isZero then (true, false)
  else if value.isOne then (true, true)
  else (false, false)

/-! ## strings.ToLower, strings.TrimSpace -/

/-- The rune mapping `unicode.ToLower`, as far as it can reach ASCII: the
ASCII capitals, U+0130 (to `i`) and U+212A (to `k`) are the only runes whose
lower case is an ASCII rune. Every other rune is kept; its real lower case is
again a non-ASCII rune. -/
def unicodeToLower (c : Char) : Char :=
  if 65 ≤ c.toNat ∧ c.toNat ≤ 90 then Char.ofNat (c.toNat + 32)
  else if c.toNat = 0x130 then 'i'
  else if c.toNat = 0x212A then 'k'
  else c

/-- Model of `strings.ToLower`: `unicode.ToLower` on every rune. -/
def ToLower (s : String) : String := String.mk (s.data.map unicodeToLower)

/-- Model of `unicode.IsSpace` (the Unicode White_Space property). -/
def isSpace (c : Char) : Bool :=
  let n := c.toNat
  (9 ≤ n && n ≤ 13) || n == 0x20 || n == 0x85 || n == 0xA0 || n == 0x1680 ||
  (0x2000 ≤ n && n ≤ 0x200A) || n == 0x2028 || n == 0x2029 || n == 0x202F ||
  n == 0x205F || n == 0x3000

/-- Model of `strings.TrimSpace`: drop leading and trailing white space. -/
def TrimSpace (s : String) : String :=
  String.mk ((s.data.dropWhile isSpace).reverse.dropWhile isSpace).reverse

/-! ## Truthiness classifiers -/

/-- Embedding of `IsTruthyInt`. -/
def IsTruthyInt (value : Int) : Bool × Bool :=
  if value = 0 then (true, false)
  else if value = 1 then (true, true)
  else (false, false)

/-- Embedding of `IsTruthyString`: lower-case, length short-circuit, then
the literal switch. -/
def IsTruthyString (value : String) : Bool × Bool :=
  let tmp := ToLower value
  if tmp.utf8ByteSize ≥ 10 then (false, false)
  else if tmp = "true" ∨ tmp = "t" then (true, true)
  else if tmp = "false" ∨ tmp = "f" ∨ tmp = "" then (true, false)
  else if tmp = "0" ∨ tmp = "-0" then (true, false)
  else if tmp = "1" then (true, true)
  else if tmp = "null" ∨ tmp = "nil" ∨ tmp = "none" then (true, false)
  else if tmp = "undefined" ∨ tmp = "nan" then (true, false)
  else (false, false)

/-! ## Structure sniffers -/

/-- Embedding of `IsJsonString`: `v[0]` panics on an empty trimmed value. -/
def IsJsonString (value : String) : Except Panic Bool :=
  let v := TrimSpace value
  match v.data.head?, v.data.getLast? with
  | some a, some b => .ok (a == '{' && b == '}')
  | _, _ => .error .indexOutOfRange

/-- Embedding of `IsArrayString`: `v[0]` panics on an empty trimmed value. -/
def IsArrayString (value : String) : Except Panic Bool :=
  let v := TrimSpace value
  match v.data.head?, v.data.getLast? with
  | some a, some b => .ok (a == '[' && b == ']')
  | _, _ => .error .indexOutOfRange

/-! ## Data model -/

/-- The dynamic values an `interface{}` holds in this program. -/
inductive GoValue where
  | nil
  | int (n : Int)
  | float (f : Float64)
  | str (s : String)
  deriving DecidableEq, Repr

/-- Embedding of the struct `TypeAssert`. -/
structure TypeAssert where
  Value : GoValue := .nil
  ConvertedValue : GoValue := .nil
  ValueType : String := ""
  IsArray : Bool := false
  IsJson : Bool := false
  IsTruthy : Bool := false
  TruthyValue : Bool := false
  deriving DecidableEq, Repr

/-- Embedding of the struct `TypeTotals`. -/
structure TypeTotals where
  Nil : Nat := 0
  Bool : Nat := 0
  Int : Nat := 0
  Float : Nat := 0
  String : Nat := 0
  JSON : Nat := 0
  Array : Nat := 0
  deriving DecidableEq, Repr

/-! ## TypeAsserter -/

/-- The forced conversion at the head of `TypeAsserter` for a text value:
`strconv.ParseInt` first, and `strconv.ParseFloat` only when that failed
(`fmt.Sprintf` with `%v` and `%s` of a string is the string itself). -/
def coerce (value : String) : GoValue :=
  match ParseInt value with
  | .ok v => .int v
  | .error _ =>
    match ParseFloat value with
    | .ok v => .float v
    | .error _ => .str value

/-- Embedding of `TypeAsserter` on a text value. The type switch sees an
`int64`, a `float64` or a `string`; the truthiness chain then re-renders the
value with `%s`, `%d` or `%f`. The result is the Go pair
`(TypeAssert, error)`, or a panic. -/
def TypeAsserter (value : String) : Except Panic (TypeAssert × Option GoError) :=
  let ta : TypeAssert := { Value := .str value }
  match coerce value with
  | .str v =>
    -- case string: ValueType "string", ConvertedValue the text
    let ta := { ta with ValueType := "string", ConvertedValue := .str v }
    let t := IsTruthyString v
    match IsArrayString v with
    | .error p => .error p
    | .ok isArray =>
      match IsJsonString v with
      | .error p => .error p
      | .ok isJson =>
        .ok ({ ta with IsTruthy := t.1, TruthyValue := t.2, IsArray := isArray,
                       IsJson := isJson }, none)
  | .int v64 =>
    -- case int64: ValueType "int", then Atoi of the %d rendering
    let ta := { ta with ValueType := "int" }
    match Atoi (formatInt v64) with
    | .error e => .ok ({}, some e)
    | .ok v =>
      let t := IsTruthyInt v
      .ok ({ ta with IsTruthy := t.1, TruthyValue := t.2, ConvertedValue := .int v }, none)
  | .float f =>
    -- case float64: ValueType "float", then ParseFloat of the %f rendering
    let ta := { ta with ValueType := "float" }
    match ParseFloat (formatF f) with
    | .error e => .ok ({}, some e)
    | .ok v =>
      let t := IsTruthyFloat v
      .ok ({ ta with IsTruthy := t.1, TruthyValue := t.2, ConvertedValue := .float v }, none)
  | .nil =>
    -- case nil: not reached from text
    .ok ({ ta with ValueType := "nil", IsTruthy := true, TruthyValue := false }, none)

/-! ## GetTypeTotals -/

/-- The `switch ta.ValueType` of `GetTypeTotals`. -/
def countType (tt : TypeTotals) (valueType : String) : TypeTotals :=
  if valueType = "nil" then { tt with Nil := tt.Nil + 1 }
  else if valueType = "bool" then { tt with Bool := tt.Bool + 1 }
  else if valueType = "int" then { tt with Int := tt.Int + 1 }
  else if valueType = "float" then { tt with Float := tt.Float + 1 }
  else if valueType = "string" then { tt with String := tt.String + 1 }
  else if valueType = "array" then { tt with Array := tt.Array + 1 }
  else if valueType = "json" then { tt with JSON := tt.JSON + 1 }
  else tt

/-- The loop of `GetTypeTotals` over the remaining columns, with the
accumulators `tt` and `ctd`; the error of `TypeAsserter` is discarded. -/
def getTypeTotalsLoop : List String → TypeTotals → List TypeAssert →
    Except Panic (TypeTotals × List TypeAssert)
  | [], tt, ctd => .ok (tt, ctd)
  | col :: rest, tt, ctd =>
    match TypeAsserter col with
    | .error p => .error p
    | .ok (ta, _) => getTypeTotalsLoop rest (countType tt ta.ValueType) (ctd ++ [ta])

/-- Embedding of `GetTypeTotals`. -/
def GetTypeTotals (row : List String) : Except Panic (TypeTotals × List TypeAssert) :=
  getTypeTotalsLoop row {} []

/-! ## IsFirstRowLabels -/

/-- The first loop of `IsFirstRowLabels`: the slots of `firstRowTypes` for
the columns of row 0; a slot stays the zero `TypeAssert` when `TypeAsserter`
returns an error. -/
def firstRowSlots : List String → Except Panic (List TypeAssert)
  | [] => .ok []
  | col :: rest =>
    match TypeAsserter col with
    | .error p => .error p
    | .ok (ta, err) =>
      match firstRowSlots rest with
      | .error p => .error p
      | .ok slots => .ok ((if err.isSome then {} else ta) :: slots)

/-- The inner loop of `IsFirstRowLabels` over the columns of one later row,
from column `j` on: `true` is the early `return true`. The index
`firstRowTypes[j]` panics past the last slot. -/
def compareRow (firstRowTypes : List TypeAssert) : Nat → List String → Except Panic Bool
  | _, [] => .ok false
  | j, col :: rest =>
    match TypeAsserter col with
    | .error p => .error p
    | .ok (ta, err) =>
      if err.isNone then
        match firstRowTypes.get? j with
        | none => .error .indexOutOfRange
        | some ref =>
          if ta.ValueType ≠ ref.ValueType then .ok true
          else compareRow firstRowTypes (j + 1) rest
      else compareRow firstRowTypes (j + 1) rest

/-- The outer loop `for i := 1; i < rowsToCheck; i++` of `IsFirstRowLabels`;
the list holds `rows[i:]`, so it is empty only once `i = len(rows)`, which
`rowsToCheck` never exceeds. -/
def compareRows (firstRowTypes : List TypeAssert) (rowsToCheck : Int) :
    Nat → List (List String) → Except Panic Bool
  | _, [] => .ok false
  | i, row :: rest =>
    if (i : Int) < rowsToCheck then
      match compareRow firstRowTypes 0 row with
      | .error p => .error p
      | .ok true => .ok true
      | .ok false => compareRows firstRowTypes rowsToCheck (i + 1) rest
    else .ok false

/-- Embedding of `IsFirstRowLabels`: clamp the window, profile row 0 into
`len(rows[0]) + 1` slots (`rows[0]` panics on an empty sample), then compare
the later rows of the window. -/
def IsFirstRowLabels (rows : List (List String)) (rowsToCheck : Int) : Except Panic Bool :=
  let l : Int := rows.length
  let rowsToCheck := if rowsToCheck > l then l else rowsToCheck
  match rows with
  | [] => .error .indexOutOfRange
  | row0 :: later =>
    match firstRowSlots row0 with
    | .error p => .error p
    | .ok slots => compareRows (slots ++ [{}]) rowsToCheck 1 later

/-! ## The scan loop of run -/

/-- An `error` returned by `csv.Reader.Read`: `io.EOF` itself, or any other
error with its `Error()` text. -/
inductive ReaderError where
  | eof
  | other (text : String)
  deriving DecidableEq, Repr

/-- Model of `strings.Contains`. -/
def Contains (s substr : String) : Bool := decide (substr.data <:+: s.data)

/-- The test `strings.Contains(err.Error(), "wrong number of fields")`. -/
def isFieldCountError : ReaderError → Bool
  | .eof => Contains "EOF" "wrong number of fields"
  | .other text => Contains text "wrong number of fields"

/-- One result of `r.Read()`: the row and the error (`none` is `nil`). -/
abbrev ReadResult := List String × Option ReaderError

/-- Lookup in a Go `map[string]int`, modelled as an association list. -/
def mapGet (m : List (String × Nat)) (k : String) : Option Nat :=
  match m with
  | [] => none
  | (k1, v1) :: rest => if k1 = k then some v1 else mapGet rest k

/-- Assignment `m[k] = v` in a Go `map[string]int`. -/
def mapSet (m : List (String × Nat)) (k : String) (v : Nat) : List (String × Nat) :=
  match m with
  | [] => [(k, v)]
  | (k1, v1) :: rest => if k1 = k then (k, v) :: rest else (k1, v1) :: mapSet rest k v

/-- The variables the scan loop of `run` updates. -/
structure ScanState where
  TotalLineCount : Nat := 0
  columnCounts : List (String × Nat) := []
  first5Rows : List (List String) := []
  normalRow : List String := []
  deriving DecidableEq, Repr

/-- Embedding of the `for` loop of `run` over the results of `r.Read()`. An
exhausted list stands for the reader's `(nil, io.EOF)`. The result is the
state at `break`, or the error `run` returns. -/
def scanLoop : List ReadResult → ScanState → Except ReaderError ScanState
  | [], st => .ok st
  | (row, err) :: rest, st =>
    let colLen := formatInt row.length
    let counts :=
      if colLen ≠ "0" ∧ (mapGet st.columnCounts colLen).isNone then
        mapSet st.columnCounts colLen 0
      else st.columnCounts
    if err = some .eof then .ok { st with columnCounts := counts }
    else if colLen = "0" then scanLoop rest { st with columnCounts := counts }
    else
      let counts := mapSet counts colLen ((mapGet counts colLen).getD 0 + 1)
      match err with
      | some e =>
        if isFieldCountError e then
          scanLoop rest { st with columnCounts := counts,
                                  TotalLineCount := st.TotalLineCount + 1 }
        else .error e
      | none =>
        let first5 := if st.TotalLineCount < 5 then st.first5Rows ++ [row] else st.first5Rows
        let normal := if st.TotalLineCount < 3 then row else st.normalRow
        scanLoop rest { TotalLineCount := st.TotalLineCount + 1, columnCounts := counts,
                        first5Rows := first5, normalRow := normal }

/-- The scan of `run` from its initial state. -/
def scan (results : List ReadResult) : Except ReaderError ScanState :=
  scanLoop results {}

/-- Sum of the values of a field-count mapping. -/
def mapSum (m : List (String × Nat)) : Nat := (m.map (·.2)).sum

/-! ## The %v verb -/

/-- The comparison of two finite floats for identity of sign and value. -/
def Float64.same (a b : Float64) : Bool :=
  match a, b with
  | .finite na ma ea, .finite nb mb eb =>
    na == nb && ma * 2 ^ (ea - min ea eb).toNat == mb * 2 ^ (eb - min ea eb).toNat
  | _, _ => false

/-- Number of zeros between the decimal point and the first significant
digit of `n / d < 1`, found by repeated multiplication by ten. -/
def leadingZeros : Nat → Nat → Nat → Nat
  | 0, _, _ => 0
  | fuel + 1, n, d => if d ≤ n * 10 then 0 else leadingZeros fuel (n * 10) d + 1

/-- The decimal point position `dp` of the positive rational `n / d`, with
`10^(dp-1) ≤ n / d < 10^dp`. -/
def decimalPoint (n d : Nat) : Int :=
  if d ≤ n then ((natDigits (n / d)).length : Int) else -(leadingZeros 400 n d : Int)

/-- Decimal digits without their trailing zeros; one digit is always kept. -/
def trimZeros (ds : List Char) : List Char :=
  match (ds.reverse.dropWhile (· == '0')).reverse with
  | [] => ['0']
  | c :: t => c :: t

/-- The decimal `0.d1d2... * 10^dp` that stands for `x * 10^(dp - p)`. -/
def candidate (x p : Nat) (dp : Int) : List Char × Int :=
  (trimZeros (natDigits x), dp + ((natDigits x).length : Int) - (p : Int))

/-- The layout `%e` of `strconv` for the digits `d` with decimal point `dp`, all
digits printed: `d.ddde±xx`, the exponent on two digits at least. -/
def fmtE (neg : Bool) (d : List Char) (dp : Int) : List Char :=
  let e : Int := if d = [] then 0 else dp - 1
  let ex := e.natAbs
  (if neg then ['-'] else []) ++
    (match d with
     | [] => ['0']
     | [c] => [c]
     | c :: rest => c :: '.' :: rest) ++
    'e' :: (if e < 0 then '-' else '+') ::
      (if ex < 10 then ['0', digitChar ex] else natDigits ex)

/-- The layout `%f` of `strconv` for the digits `d` with decimal point `dp`, all
digits printed: the integer part padded with zeros, then the fraction when
there is one. -/
def fmtFixed (neg : Bool) (d : List Char) (dp : Int) : List Char :=
  (if neg then ['-'] else []) ++
    (if 0 < dp then d.take dp.toNat ++ List.replicate (dp.toNat - d.length) '0' else ['0']) ++
    (if dp < d.length then '.' :: (List.replicate (-dp).toNat '0' ++ d.drop dp.toNat) else [])

/-- The layout `%g` of `strconv` in the shortest mode: `%e` when the decimal
exponent is below -4 or at least 6, `%f` otherwise. -/
def fmtG (neg : Bool) (d : List Char) (dp : Int) : String :=
  if dp - 1 < -4 ∨ 6 ≤ dp - 1 then String.mk (fmtE neg d dp) else String.mk (fmtFixed neg d dp)

/-- Whether the decimal `c` identifies the float `v`: its rendering parses
back to `v`. -/
def accepts (v : Float64) (neg : Bool) (c : List Char × Int) : Bool :=
  match ParseFloat (fmtG neg c.1 c.2) with
  | .ok w => w.same v
  | .error _ => false

/-- The shortest decimal that identifies `v = n / d`: for `p = 1, 2, ...`
significant digits, the exact value cut after `p` digits and that plus one
unit in the last place are tried; the first that identifies `v` is taken, the
nearer of the two (ties to even) when both do. -/
def shortestLoop (v : Float64) (neg : Bool) (n d : Nat) (dp : Int) :
    Nat → Nat → Option (List Char × Int)
  | 0, _ => none
  | fuel + 1, p =>
    let num := n * 10 ^ ((p : Int) - dp).toNat
    let den := d * 10 ^ (dp - (p : Int)).toNat
    let lo := num / den
    let r := num % den
    let down := candidate lo p dp
    let up := candidate (lo + 1) p dp
    let okdown := accepts v neg down
    let okup := accepts v neg up
    if okdown && okup then
      (if 2 * r < den then some down
       else if den < 2 * r then some up
       else if lo % 2 = 0 then some down else some up)
    else if okdown then some down
    else if okup then some up
    else shortestLoop v neg n d dp fuel (p + 1)

/-- Rendering of a `float64` by the verb `%v`, which is `%g` with the
smallest number of digits that identifies the value
(`strconv.FormatFloat(f, 'g', -1, 64)`, with `+Inf` for the positive
infinity). Seventeen digits identify every `float64`, so the search is run up
to seventeen digits; the last arm keeps the function total with the `%f`
rendering. -/
def formatFloatV (f : Float64) : String :=
  match f with
  | .nan => "NaN"
  | .inf false => "+Inf"
  | .inf true => "-Inf"
  | .finite neg m e =>
    if m = 0 then fmtG neg [] 0
    else
      let n := m * 2 ^ e.toNat
      let d := 2 ^ (-e).toNat
      match shortestLoop f neg n d (decimalPoint n d) 17 1 with
      | some c => fmtG neg c.1 c.2
      | none => formatF f

/-- Rendering of a dynamic value by `fmt.Sprintf("%v", value)`. -/
def formatV : GoValue → String
  | .nil => "<nil>"
  | .int n => formatInt n
  | .float f => formatFloatV f
  | .str s => s

/-! ## Specification-side definitions -/

/-- The literal table of the spec, section 4.3, applied to an already
lower-cased text, without the length short-circuit. -/
def truthyTable (L : String) : Bool × Bool :=
  if L ∈ ["true", "t", "1"] then (true, true)
  else if L ∈ ["false", "f", "", "0", "-0", "null", "nil", "none", "undefined", "nan"] then
    (true, false)
  else (false, false)


/-- The `TypeAssert` that `TypeAsserter` returns for a field (the zero value
when it panics). -/
def assertOf (s : String) : TypeAssert :=
  match TypeAsserter s with
  | .ok (ta, _) => ta
  | .error _ => {}

/-- The ValueType that `TypeAsserter` gives a field. -/
def valueTypeOf (s : String) : String := (assertOf s).ValueType

/-- A field is classifiable when `TypeAsserter` returns on it, with a nil
error. -/
def Classifiable (s : String) : Prop := ∃ ta, TypeAsserter s = .ok (ta, none)

/-- Some row `i` with `1 <= i < min(w, len(rows))` has a column `j` whose
ValueType differs from the ValueType of column `j` of row 0. -/
def TypeMismatchInWindow (rows : List (List String)) (w : Int) : Prop :=
  ∃ (i j : Nat) (row row0 : List String) (f g : String),
    1 ≤ i ∧ (i : Int) < min w (rows.length : Int) ∧
    rows[i]? = some row ∧ rows[0]? = some row0 ∧
    row[j]? = some f ∧ row0[j]? = some g ∧ valueTypeOf f ≠ valueTypeOf g

/-- Whether a later row differs from the reference slots of row 0 as the
inner loop of `IsFirstRowLabels` sees it: a field at the column of the extra
slot always differs. -/
def differsZ : List TypeAssert → List String → Bool
  | _, [] => false
  | [], _ :: _ => true
  | r :: refs, f :: row => (valueTypeOf f != r.ValueType) || differsZ refs row

/-- Number of fields of a row that `TypeAsserter` gives the ValueType `k`. -/
def kindCount (k : String) (row : List String) : Nat :=
  row.countP (fun f => valueTypeOf f == k)

/-- Range invariant of the `float64` values the model produces: a finite
value has a mantissa below `2^53` and an exponent of at most 971. -/
def Float64.WF : Float64 → Prop
  | .finite _ m e => m < 2 ^ 53 ∧ e ≤ 971
  | _ => True

/-- The floor of the binary logarithm of `n / d` as `nearestFloat64`
computes it. -/
def floorLog2 (n d : Nat) : Int :=
  let l : Int := (bitLen n : Int) - (bitLen d : Int)
  if d * 2 ^ l.toNat ≤ n * 2 ^ (-l).toNat then l else l - 1


/-- A reader result with at least one field. -/
def nonBlank (r : ReadResult) : Bool := !r.1.isEmpty

/-- A well-formed reader result: at least one field and a nil error. -/
def wellFormed (r : ReadResult) : Bool := !r.1.isEmpty && r.2.isNone

/-- A reader result that lets the scan continue: not `io.EOF`, and a row
with fields carries no error or a "wrong number of fields" error. -/
def continues (r : ReadResult) : Bool :=
  match r.2 with
  | none => true
  | some .eof => false
  | some e => r.1.isEmpty || isFieldCountError e

/-- The well-formed rows of a stream, in order. -/
def wellFormedRows (results : List ReadResult) : List (List String) :=
  (results.filter wellFormed).map (·.1)

/-- The well-formed rows among the first `n` rows with fields of a stream. -/
def sampledRows (n : Nat) (results : List ReadResult) : List (List String) :=
  (((results.filter nonBlank).take n).filter wellFormed).map (·.1)

/-- The effect of the scan loop on the mapping for a row with fields whose
field count renders as `k`: create the entry at 0 when absent, then add 1. -/
def countRow (m : List (String × Nat)) (k : String) : List (String × Nat) :=
  let m1 := if (mapGet m k).isNone then mapSet m k 0 else m
  mapSet m1 k ((mapGet m1 k).getD 0 + 1)

/-- A text made of an optional sign and decimal digits, at least one. -/
def isIntegerLiteral (s : String) : Bool :=
  match s.data with
  | [] => false
  | c :: rest =>
    let body := if c == '+' || c == '-' then rest else c :: rest
    decide (body ≠ []) && body.all isDigit

/-! ## Decimal rendering and parsing of integers -/

theorem digitVal_digitChar (d : Nat) : digitVal (digitChar d) = d % 10 := by
  have h : d % 10 < 10 := Nat.mod_lt _ (by decide)
  unfold digitChar
  generalize d % 10 = r at h
  interval_cases r <;> rfl

theorem isDigit_digitChar (d : Nat) : isDigit (digitChar d) = true := by
  have h : d % 10 < 10 := Nat.mod_lt _ (by decide)
  unfold digitChar
  generalize d % 10 = r at h
  interval_cases r <;> rfl

theorem digitsValue_cons (a : Nat) (c : Char) (cs : List Char) :
    digitsValue a (c :: cs) = digitsValue (a * 10 + digitVal c) cs := rfl

theorem digitsValue_nil (a : Nat) : digitsValue a [] = a := rfl

theorem digitsValue_append (a : Nat) (xs ys : List Char) :
    digitsValue a (xs ++ ys) = digitsValue (digitsValue a xs) ys := by
  induction xs generalizing a with
  | nil => rfl
  | cons x xs ih => exact ih (a * 10 + digitVal x)

theorem natDigitsAux_succ (fuel n : Nat) (acc : List Char) :
    natDigitsAux (fuel + 1) n acc =
      if n < 10 then digitChar n :: acc
      else natDigitsAux fuel (n / 10) (digitChar (n % 10) :: acc) := rfl

theorem natDigitsAux_append (fuel n : Nat) (acc : List Char) :
    natDigitsAux fuel n acc = natDigitsAux fuel n [] ++ acc := by
  induction fuel generalizing n acc with
  | zero => rfl
  | succ f ih =>
    rw [natDigitsAux_succ, natDigitsAux_succ]
    by_cases hn : n < 10
    · rw [if_pos hn, if_pos hn]; rfl
    · rw [if_neg hn, if_neg hn, ih (n / 10) (digitChar (n % 10) :: acc),
        ih (n / 10) [digitChar (n % 10)], List.append_assoc]; rfl

theorem digitsValue_natDigitsAux (fuel n : Nat) (h : n < fuel) :
    digitsValue 0 (natDigitsAux fuel n []) = n := by
  induction fuel generalizing n with
  | zero => omega
  | succ f ih =>
    rw [natDigitsAux_succ]
    by_cases hn : n < 10
    · rw [if_pos hn, digitsValue_cons, digitsValue_nil, digitVal_digitChar]
      omega
    · rw [if_neg hn, natDigitsAux_append, digitsValue_append, ih (n / 10) (by omega),
        digitsValue_cons, digitsValue_nil, digitVal_digitChar]
      omega

theorem all_isDigit_natDigitsAux (fuel n : Nat) :
    (natDigitsAux fuel n []).all isDigit = true := by
  induction fuel generalizing n with
  | zero => rfl
  | succ f ih =>
    rw [natDigitsAux_succ]
    by_cases hn : n < 10
    · rw [if_pos hn, List.all_cons, isDigit_digitChar]; rfl
    · rw [if_neg hn, natDigitsAux_append, List.all_append, ih, List.all_cons,
        isDigit_digitChar]; rfl

theorem natDigitsAux_ne_nil (fuel n : Nat) : natDigitsAux (fuel + 1) n [] ≠ [] := by
  rw [natDigitsAux_succ]
  by_cases hn : n < 10
  · rw [if_pos hn]; exact List.cons_ne_nil _ _
  · rw [if_neg hn, natDigitsAux_append]
    intro h
    exact List.cons_ne_nil _ _ (List.append_eq_nil.mp h).2

theorem digitsValue_natDigits (n : Nat) : digitsValue 0 (natDigits n) = n :=
  digitsValue_natDigitsAux (n + 1) n (Nat.lt_succ_self n)

theorem all_isDigit_natDigits (n : Nat) : (natDigits n).all isDigit = true :=
  all_isDigit_natDigitsAux (n + 1) n

theorem natDigits_cons (n : Nat) :
    ∃ c cs, natDigits n = c :: cs ∧ isDigit c = true := by
  have h := all_isDigit_natDigits n
  have hne : natDigits n ≠ [] := natDigitsAux_ne_nil n n
  cases hd : natDigits n with
  | nil => exact absurd hd hne
  | cons c cs =>
    rw [hd] at h
    simp only [List.all_cons, Bool.and_eq_true] at h
    exact ⟨c, cs, rfl, h.1⟩

theorem isDigit_ne_sign (c : Char) (h : isDigit c = true) : c ≠ '+' ∧ c ≠ '-' := by
  constructor <;> rintro rfl <;> exact absurd h (by decide)

theorem le_digitsValue (a : Nat) (ds : List Char) : a ≤ digitsValue a ds := by
  induction ds generalizing a with
  | nil => exact Nat.le_refl a
  | cons c cs ih =>
    rw [digitsValue_cons]
    exact Nat.le_trans (by omega) (ih (a * 10 + digitVal c))

theorem parseUintLoop_digits (ds : List Char) (n : Nat)
    (hds : ds.all isDigit = true) (h : digitsValue n ds < 2 ^ 64) :
    parseUintLoop ds n = .ok (digitsValue n ds) := by
  induction ds generalizing n with
  | nil => rfl
  | cons c cs ih =>
    rw [List.all_cons, Bool.and_eq_true] at hds
    rw [digitsValue_cons] at h ⊢
    have hge := le_digitsValue (n * 10 + digitVal c) cs
    rw [parseUintLoop]
    simp only [hds.1, Bool.not_true, Bool.false_eq_true, if_false]
    rw [if_neg (by omega), if_neg (by omega)]
    exact ih (n * 10 + digitVal c) hds.2 h

theorem ParseUint_natDigits (n : Nat) (h : n < 2 ^ 64) :
    ParseUint (natDigits n) = .ok n := by
  obtain ⟨c, cs, hcs, _⟩ := natDigits_cons n
  unfold ParseUint
  rw [if_neg (by rw [hcs]; exact List.cons_ne_nil _ _),
    parseUintLoop_digits _ 0 (all_isDigit_natDigits n) (by rw [digitsValue_natDigits]; exact h),
    digitsValue_natDigits]

theorem ParseInt_formatInt (n : Int) (hlo : -2 ^ 63 ≤ n) (hhi : n < 2 ^ 63) :
    ParseInt (formatInt n) = .ok n := by
  cases n with
  | ofNat m =>
    have hm : m < 2 ^ 63 := by
      have h1 : (m : Int) < 2 ^ 63 := hhi
      omega
    obtain ⟨c, cs, hcs, hc⟩ := natDigits_cons m
    have hs := isDigit_ne_sign c hc
    have hp := ParseUint_natDigits m (by omega)
    unfold ParseInt formatInt
    simp only [hcs]
    rw [hcs] at hp
    simp [hs.1, hs.2, hp]
    omega
  | negSucc m =>
    have hm : m + 1 ≤ 2 ^ 63 := by
      have h1 : -2 ^ 63 ≤ -((m : Int) + 1) := by simpa [Int.negSucc_eq] using hlo
      omega
    have hp := ParseUint_natDigits (m + 1) (by omega)
    unfold ParseInt formatInt
    simp [hp]
    rw [if_neg (by omega)]
    congr 1
    rw [Int.negSucc_eq]
    omega


theorem IsTruthyInt_eq (n : Int) :
    IsTruthyInt n = (decide (n = 0 ∨ n = 1), decide (n = 1)) := by
  unfold IsTruthyInt
  by_cases h0 : n = 0
  · subst h0; rfl
  · by_cases h1 : n = 1
    · subst h1; rfl
    · simp [h0, h1]

/-! ## C1: integers -/

/-- C1 (as amended): for every integer `n` in the 64-bit range,
`TypeAsserter` on the decimal text of `n` returns no error and a
`TypeAssert` of ValueType "int" whose IsTruthy flag is true exactly when
`n` is 0 or 1, whose TruthyValue is true exactly when `n = 1`, and whose
ConvertedValue is `n`. -/
theorem typeAsserter_int64 (n : Int) (hlo : -2 ^ 63 ≤ n) (hhi : n < 2 ^ 63) :
    TypeAsserter (formatInt n) =
      .ok ({ Value := .str (formatInt n), ConvertedValue := .int n, ValueType := "int",
             IsArray := false, IsJson := false,
             IsTruthy := decide (n = 0 ∨ n = 1), TruthyValue := decide (n = 1) }, none) := by
  have hp := ParseInt_formatInt n hlo hhi
  have hc : coerce (formatInt n) = .int n := by
    unfold coerce; rw [hp]
  unfold TypeAsserter
  rw [hc]
  simp only [Atoi, hp, IsTruthyInt_eq]

/-- C1 witness: the amended statement at `n = 1`. -/
theorem typeAsserter_int64_witness :
    TypeAsserter (formatInt 1) =
      .ok ({ Value := .str (formatInt 1), ConvertedValue := .int 1, ValueType := "int",
             IsArray := false, IsJson := false,
             IsTruthy := decide ((1 : Int) = 0 ∨ (1 : Int) = 1),
             TruthyValue := decide ((1 : Int) = 1) }, none) :=
  typeAsserter_int64 1 (by decide) (by decide)

set_option maxRecDepth 20000 in
/-- C1 counterexample: the decimal text of `2^63` does not fit 64 bits, so
`strconv.ParseInt` fails, `strconv.ParseFloat` succeeds and the ValueType is
"float", not "int". -/
theorem typeAsserter_large_int_is_float :
    formatInt (2 ^ 63) = "9223372036854775808" ∧
    (TypeAsserter "9223372036854775808").map (fun r => (r.1.ValueType, r.2)) =
      .ok ("float", none) := by
  decide

/-! ## C2: floats -/

set_option maxRecDepth 20000 in
/-- C2 (evaluation at the failing input): "1.0000001" denotes a float that
is not 1.0, and `IsTruthyFloat` does not recognize that float, but
`TypeAsserter` re-renders it with `%f` as "1.000000" before the truthiness
test and reports IsTruthy = true, TruthyValue = true; likewise "0.0000001"
is reported as a recognized false. -/
theorem typeAsserter_float_truthiness_rounded :
    ParseFloat "1.0000001" = .ok (.finite false 4503600077730459 (-52)) ∧
    IsTruthyFloat (.finite false 4503600077730459 (-52)) = (false, false) ∧
    formatF (.finite false 4503600077730459 (-52)) = "1.000000" ∧
    (TypeAsserter "1.0000001").map
        (fun r => (r.1.ValueType, r.1.IsTruthy, r.1.TruthyValue, r.2)) =
      .ok ("float", true, true, none) ∧
    (TypeAsserter "0.0000001").map
        (fun r => (r.1.ValueType, r.1.IsTruthy, r.1.TruthyValue, r.2)) =
      .ok ("float", true, false, none) := by
  decide

/-! ## C3: blank text -/

set_option maxRecDepth 20000 in
/-- C3 (evaluation at the failing input): on the empty string and on
all-whitespace text `TypeAsserter` does not return; `IsArrayString` indexes
the empty trimmed value and panics. -/
theorem typeAsserter_blank_panics :
    TypeAsserter "" = .error .indexOutOfRange ∧
    TypeAsserter "  \t" = .error .indexOutOfRange := by
  decide

/-! ## C4: string truthiness -/

theorem utf8ByteSize_go_ge_length (cs : List Char) :
    cs.length ≤ String.utf8ByteSize.go cs := by
  induction cs with
  | nil => exact Nat.le_refl 0
  | cons c cs ih =>
    have hc : 0 < c.utf8Size := Char.utf8Size_pos c
    simp only [String.utf8ByteSize.go, List.length_cons]
    omega

theorem length_le_utf8ByteSize (s : String) : s.length ≤ s.utf8ByteSize := by
  cases s with
  | mk cs => exact utf8ByteSize_go_ge_length cs

theorem ToLower_length (s : String) : (ToLower s).length = s.length := by
  show (s.data.map unicodeToLower).length = s.data.length
  exact List.length_map _ _

theorem IsTruthyString_eq_table (s : String) :
    IsTruthyString s = truthyTable (ToLower s) := by
  unfold IsTruthyString truthyTable
  generalize ToLower s = L
  by_cases h0 : L = "true"
  · subst h0; decide
  by_cases h1 : L = "t"
  · subst h1; decide
  by_cases h2 : L = "1"
  · subst h2; decide
  by_cases h3 : L = "false"
  · subst h3; decide
  by_cases h4 : L = "f"
  · subst h4; decide
  by_cases h5 : L = ""
  · subst h5; decide
  by_cases h6 : L = "0"
  · subst h6; decide
  by_cases h7 : L = "-0"
  · subst h7; decide
  by_cases h8 : L = "null"
  · subst h8; decide
  by_cases h9 : L = "nil"
  · subst h9; decide
  by_cases h10 : L = "none"
  · subst h10; decide
  by_cases h11 : L = "undefined"
  · subst h11; decide
  by_cases h12 : L = "nan"
  · subst h12; decide
  simp only [h0, h1, h2, h3, h4, h5, h6, h7, h8, h9, h10, h11, h12, List.mem_cons, List.mem_singleton,
    List.not_mem_nil, or_false, or_self, if_false, ite_self]

theorem truthyTable_lists_disjoint (L : String) (h1 : L ∈ ["true", "t", "1"])
    (h2 : L ∈ ["false", "f", "", "0", "-0", "null", "nil", "none", "undefined", "nan"]) :
    False := by
  simp only [List.mem_cons, List.mem_singleton, List.not_mem_nil, or_false] at h1
  rcases h1 with h | h | h <;> subst h <;> exact absurd h2 (by decide)

theorem IsTruthyString_long (s : String) (h : 10 ≤ (ToLower s).utf8ByteSize) :
    IsTruthyString s = (false, false) := by
  unfold IsTruthyString
  exact if_pos h

/-- C4: `IsTruthyString` is the literal table applied to the lower-cased
text: (true, true) exactly on "true", "t", "1"; (true, false) exactly on
"false", "f", "", "0", "-0", "null", "nil", "none", "undefined", "nan";
(false, false) otherwise. It depends only on the lower-cased text, every
text of 10 or more characters is not recognized, and the length
short-circuit never changes the table lookup. -/
theorem IsTruthyString_spec (s : String) :
    (IsTruthyString s = (true, true) ↔ ToLower s ∈ ["true", "t", "1"]) ∧
    (IsTruthyString s = (true, false) ↔
      ToLower s ∈ ["false", "f", "", "0", "-0", "null", "nil", "none", "undefined", "nan"]) ∧
    (IsTruthyString s = (false, false) ↔
      ToLower s ∉ ["true", "t", "1"] ∧
      ToLower s ∉ ["false", "f", "", "0", "-0", "null", "nil", "none", "undefined", "nan"]) ∧
    (∀ t : String, ToLower t = ToLower s → IsTruthyString t = IsTruthyString s) ∧
    (10 ≤ s.length → IsTruthyString s = (false, false)) ∧
    IsTruthyString s = truthyTable (ToLower s) := by
  refine ⟨?_, ?_, ?_, ?_, ?_, IsTruthyString_eq_table s⟩
  · rw [IsTruthyString_eq_table]; unfold truthyTable
    by_cases h1 : ToLower s ∈ ["true", "t", "1"]
    · simp only [h1, if_true]
    · rw [if_neg h1]
      by_cases h2 : ToLower s ∈
          ["false", "f", "", "0", "-0", "null", "nil", "none", "undefined", "nan"]
      · rw [if_pos h2]; simp only [h1, iff_false]; decide
      · rw [if_neg h2]; simp only [h1, iff_false]; decide
  · rw [IsTruthyString_eq_table]; unfold truthyTable
    by_cases h1 : ToLower s ∈ ["true", "t", "1"]
    · rw [if_pos h1]
      constructor
      · intro h; exact absurd h (by decide)
      · intro h2; exact (truthyTable_lists_disjoint _ h1 h2).elim
    · rw [if_neg h1]
      by_cases h2 : ToLower s ∈
          ["false", "f", "", "0", "-0", "null", "nil", "none", "undefined", "nan"]
      · rw [if_pos h2]; simp only [h2]
      · rw [if_neg h2]; simp only [h2, iff_false]; decide
  · rw [IsTruthyString_eq_table]; unfold truthyTable
    by_cases h1 : ToLower s ∈ ["true", "t", "1"]
    · rw [if_pos h1]
      constructor
      · intro h; exact absurd h (by decide)
      · intro h; exact absurd h1 h.1
    · rw [if_neg h1]
      by_cases h2 : ToLower s ∈
          ["false", "f", "", "0", "-0", "null", "nil", "none", "undefined", "nan"]
      · rw [if_pos h2]
        constructor
        · intro h; exact absurd h (by decide)
        · intro h; exact absurd h2 h.2
      · rw [if_neg h2]; exact ⟨fun _ => ⟨h1, h2⟩, fun _ => rfl⟩
  · intro t ht
    rw [IsTruthyString_eq_table, IsTruthyString_eq_table, ht]
  · intro h
    apply IsTruthyString_long
    have h1 := length_le_utf8ByteSize (ToLower s)
    rw [ToLower_length] at h1
    omega

/-! ## C5, C6: structure sniffers -/

theorem head?_getLast?_of_ne_nil (l : List Char) (h : l ≠ []) :
    ∃ a b, l.head? = some a ∧ l.getLast? = some b := by
  cases ha : l.head? with
  | none => exact absurd (List.head?_eq_none_iff.mp ha) h
  | some a =>
    cases hb : l.getLast? with
    | none => exact absurd (List.getLast?_eq_none_iff.mp hb) h
    | some b => exact ⟨a, b, rfl, rfl⟩

theorem singleton_prefix_iff (x : Char) (l : List Char) :
    [x] <+: l ↔ l.head? = some x := by
  rw [List.head?_eq_some_iff]
  constructor
  · rintro ⟨t, rfl⟩; exact ⟨t, rfl⟩
  · rintro ⟨t, rfl⟩; exact ⟨t, rfl⟩

theorem singleton_suffix_iff (x : Char) (l : List Char) :
    [x] <:+ l ↔ l.getLast? = some x := by
  rw [List.getLast?_eq_some_iff]
  constructor
  · rintro ⟨t, rfl⟩; exact ⟨t, rfl⟩
  · rintro ⟨t, rfl⟩; exact ⟨t, rfl⟩

theorem IsArrayString_nonblank (s : String) (h : TrimSpace s ≠ "") :
    ∃ b, IsArrayString s = .ok b ∧
      (b = true ↔ ['['] <+: (TrimSpace s).data ∧ [']'] <:+ (TrimSpace s).data) := by
  have hne : (TrimSpace s).data ≠ [] := by
    intro h0; apply h; exact String.ext h0
  obtain ⟨a, b, ha, hb⟩ := head?_getLast?_of_ne_nil _ hne
  refine ⟨a == '[' && b == ']', ?_, ?_⟩
  · unfold IsArrayString; simp only [ha, hb]
  · rw [singleton_prefix_iff, singleton_suffix_iff, ha, hb]
    simp only [Bool.and_eq_true, beq_iff_eq, Option.some.injEq]

theorem IsJsonString_nonblank (s : String) (h : TrimSpace s ≠ "") :
    ∃ b, IsJsonString s = .ok b ∧
      (b = true ↔ ['{'] <+: (TrimSpace s).data ∧ ['}'] <:+ (TrimSpace s).data) := by
  have hne : (TrimSpace s).data ≠ [] := by
    intro h0; apply h; exact String.ext h0
  obtain ⟨a, b, ha, hb⟩ := head?_getLast?_of_ne_nil _ hne
  refine ⟨a == '{' && b == '}', ?_, ?_⟩
  · unfold IsJsonString; simp only [ha, hb]
  · rw [singleton_prefix_iff, singleton_suffix_iff, ha, hb]
    simp only [Bool.and_eq_true, beq_iff_eq, Option.some.injEq]

/-- C5 (as amended): when the trimmed text is non-empty, `IsArrayString`
returns true exactly when it starts with '[' and ends with ']', and
`IsJsonString` exactly when it starts with '{' and ends with '}'; nothing
else is checked ("  [1,2,3]  " and "[\x7d\x7b]" are array-like, "\x7ba:1\x7d" and a lone
"[" are not). -/
theorem sniffers_nonblank (s : String) (h : TrimSpace s ≠ "") :
    (∃ b, IsArrayString s = .ok b ∧
      (b = true ↔ ['['] <+: (TrimSpace s).data ∧ [']'] <:+ (TrimSpace s).data)) ∧
    (∃ b, IsJsonString s = .ok b ∧
      (b = true ↔ ['{'] <+: (TrimSpace s).data ∧ ['}'] <:+ (TrimSpace s).data)) ∧
    IsArrayString "  [1,2,3]  " = .ok true ∧
    IsArrayString "\x7ba:1\x7d" = .ok false ∧
    IsArrayString "[" = .ok false ∧
    IsArrayString "[\x7d\x7b]" = .ok true :=
  ⟨IsArrayString_nonblank s h, IsJsonString_nonblank s h, by decide, by decide, by decide,
    by decide⟩

/-- C5 witness: the amended statement at "  \x7ba:1\x7d  ". -/
theorem sniffers_nonblank_witness :
    TrimSpace "  \x7ba:1\x7d  " ≠ "" ∧
    ((∃ b, IsArrayString "  \x7ba:1\x7d  " = .ok b ∧
      (b = true ↔ ['['] <+: (TrimSpace "  \x7ba:1\x7d  ").data ∧
        [']'] <:+ (TrimSpace "  \x7ba:1\x7d  ").data)) ∧
    (∃ b, IsJsonString "  \x7ba:1\x7d  " = .ok b ∧
      (b = true ↔ ['{'] <+: (TrimSpace "  \x7ba:1\x7d  ").data ∧
        ['}'] <:+ (TrimSpace "  \x7ba:1\x7d  ").data)) ∧
    IsArrayString "  [1,2,3]  " = .ok true ∧
    IsArrayString "\x7ba:1\x7d" = .ok false ∧
    IsArrayString "[" = .ok false ∧
    IsArrayString "[\x7d\x7b]" = .ok true) :=
  ⟨by decide, sniffers_nonblank "  \x7ba:1\x7d  " (by decide)⟩

/-- C5 counterexample: a lone "[" starts with '[' but ends with '[', so it
is not array-like. -/
theorem IsArrayString_lone_bracket : IsArrayString "[" = .ok false := by decide

set_option maxRecDepth 20000 in
/-- C6 (evaluation at the failing input): on the empty string and on
all-whitespace text both sniffers index the empty trimmed value and panic
instead of returning false. -/
theorem sniffers_blank_panic :
    IsArrayString "" = .error .indexOutOfRange ∧
    IsJsonString "" = .error .indexOutOfRange ∧
    IsArrayString " \t\n" = .error .indexOutOfRange ∧
    IsJsonString " \t\n" = .error .indexOutOfRange := by
  decide

/-! ## C9: empty sample -/

/-- C9: on an empty sample `IsFirstRowLabels` panics at `rows[0]` for every
window size. -/
theorem IsFirstRowLabels_empty (rowsToCheck : Int) :
    IsFirstRowLabels [] rowsToCheck = .error .indexOutOfRange := rfl

/-! ## float64 rounding: bounds of `nearestFloat64` -/

theorem bitLenAux_succ (fuel n : Nat) :
    bitLenAux (fuel + 1) n = if n = 0 then 0 else bitLenAux fuel (n / 2) + 1 := rfl

theorem bitLenAux_zero (fuel : Nat) : bitLenAux fuel 0 = 0 := by
  cases fuel <;> rfl

theorem bitLenAux_bounds (fuel n : Nat) (hf : n ≤ fuel) (hn : 0 < n) :
    0 < bitLenAux fuel n ∧ 2 ^ (bitLenAux fuel n - 1) ≤ n ∧ n < 2 ^ bitLenAux fuel n := by
  induction fuel generalizing n with
  | zero => omega
  | succ f ih =>
    rw [bitLenAux_succ, if_neg (by omega)]
    by_cases h1 : n / 2 = 0
    · have hn1 : n = 1 := by omega
      rw [h1, bitLenAux_zero, hn1]
      decide
    · obtain ⟨hp, hlo, hhi⟩ := ih (n / 2) (by omega) (by omega)
      refine ⟨by omega, ?_, ?_⟩
      · have e : bitLenAux f (n / 2) + 1 - 1 = (bitLenAux f (n / 2) - 1) + 1 := by omega
        rw [e, pow_succ]
        omega
      · rw [pow_succ]
        omega

theorem bitLen_bounds (n : Nat) (hn : 0 < n) :
    0 < bitLen n ∧ 2 ^ (bitLen n - 1) ≤ n ∧ n < 2 ^ bitLen n :=
  bitLenAux_bounds n n (Nat.le_refl n) hn

theorem roundHalfEven_le (n d K : Nat) (hd : 0 < d) (h : n ≤ K * d) :
    roundHalfEven n d ≤ K := by
  have hq : n / d ≤ K := by
    calc n / d ≤ K * d / d := Nat.div_le_div_right h
      _ = K := Nat.mul_div_cancel _ hd
  have hdm := Nat.div_add_mod n d
  have hr : n % d < d := Nat.mod_lt _ hd
  unfold roundHalfEven
  simp only
  by_cases h1 : 2 * (n % d) < d
  · rw [if_pos h1]; exact hq
  · rw [if_neg h1]
    have hlt : n / d < K := by
      by_contra hc
      have hK : K = n / d := by omega
      have : d * (n / d) + n % d ≤ (n / d) * d := by rw [hdm, ← hK]; exact h
      have : n % d = 0 := by
        rw [Nat.mul_comm] at this; omega
      omega
    split_ifs <;> omega

theorem two_zpow_split (z : Int) :
    (2 : ℚ) ^ z = (2 : ℚ) ^ z.toNat / (2 : ℚ) ^ (-z).toNat := by
  rcases le_total 0 z with h | h
  · have e1 : (-z).toNat = 0 := by omega
    rw [e1, pow_zero, div_one, ← zpow_natCast, Int.toNat_of_nonneg h]
  · have e1 : z.toNat = 0 := by omega
    have e2 : ((-z).toNat : Int) = -z := Int.toNat_of_nonneg (by omega)
    rw [e1, pow_zero, one_div, ← zpow_natCast, e2, zpow_neg, inv_inv]


theorem bitLen_rat_bounds (n : Nat) (hn : 0 < n) :
    (2 : ℚ) ^ ((bitLen n : Int) - 1) ≤ (n : ℚ) ∧ (n : ℚ) < (2 : ℚ) ^ (bitLen n : Int) := by
  obtain ⟨hp, hlo, hhi⟩ := bitLen_bounds n hn
  have e : ((bitLen n : Int) - 1) = ((bitLen n - 1 : Nat) : Int) := by omega
  rw [e, zpow_natCast, zpow_natCast]
  exact ⟨by exact_mod_cast hlo, by exact_mod_cast hhi⟩

theorem floorLog2_bounds (n d : Nat) (hn : 0 < n) (hd : 0 < d) :
    (2 : ℚ) ^ floorLog2 n d * d ≤ n ∧ (n : ℚ) < (2 : ℚ) ^ (floorLog2 n d + 1) * d := by
  obtain ⟨hn1, hn2⟩ := bitLen_rat_bounds n hn
  obtain ⟨hd1, hd2⟩ := bitLen_rat_bounds d hd
  have h2 : (0 : ℚ) < 2 := by norm_num
  have hdq : (0 : ℚ) < d := by exact_mod_cast hd
  unfold floorLog2
  simp only
  generalize hl : (bitLen n : Int) - (bitLen d : Int) = l
  have hup : (n : ℚ) < (2 : ℚ) ^ (l + 1) * d := by
    calc (n : ℚ) < (2 : ℚ) ^ (bitLen n : Int) := hn2
      _ = (2 : ℚ) ^ (l + 1) * (2 : ℚ) ^ ((bitLen d : Int) - 1) := by
          rw [← zpow_add₀ (by norm_num : (2 : ℚ) ≠ 0)]; congr 1; omega
      _ ≤ (2 : ℚ) ^ (l + 1) * d := by
          apply mul_le_mul_of_nonneg_left hd1 (le_of_lt (zpow_pos h2 _))
  have hlow : (2 : ℚ) ^ (l - 1) * d ≤ n := by
    calc (2 : ℚ) ^ (l - 1) * d ≤ (2 : ℚ) ^ (l - 1) * (2 : ℚ) ^ (bitLen d : Int) := by
          apply mul_le_mul_of_nonneg_left (le_of_lt hd2) (le_of_lt (zpow_pos h2 _))
      _ = (2 : ℚ) ^ ((bitLen n : Int) - 1) := by
          rw [← zpow_add₀ (by norm_num : (2 : ℚ) ≠ 0)]; congr 1; omega
      _ ≤ n := hn1
  have hcmp : (d * 2 ^ l.toNat ≤ n * 2 ^ (-l).toNat) ↔ (2 : ℚ) ^ l * d ≤ n := by
    have hpos : (0 : ℚ) < (2 : ℚ) ^ (-l).toNat := pow_pos h2 _
    rw [two_zpow_split l, div_mul_eq_mul_div, div_le_iff₀ hpos]
    constructor
    · intro h
      have : ((d * 2 ^ l.toNat : Nat) : ℚ) ≤ ((n * 2 ^ (-l).toNat : Nat) : ℚ) := by
        exact_mod_cast h
      push_cast at this
      linarith
    · intro h
      have : ((d * 2 ^ l.toNat : Nat) : ℚ) ≤ ((n * 2 ^ (-l).toNat : Nat) : ℚ) := by
        push_cast; linarith
      exact_mod_cast this
  by_cases hge : d * 2 ^ l.toNat ≤ n * 2 ^ (-l).toNat
  · rw [if_pos hge]
    exact ⟨hcmp.mp hge, hup⟩
  · rw [if_neg hge]
    refine ⟨hlow, ?_⟩
    have : ¬ ((2 : ℚ) ^ l * d ≤ n) := fun h => hge (hcmp.mpr h)
    have e : l - 1 + 1 = l := by omega
    rw [e]
    exact lt_of_not_le this

theorem nearestFloat64_eq (n d : Nat) :
    nearestFloat64 n d =
      (let e : Int := max (floorLog2 n d - 52) (-1074)
       let q := roundHalfEven (n * 2 ^ (-e).toNat) (d * 2 ^ e.toNat)
       let r : Nat × Int := if q = 2 ^ 53 then (2 ^ 52, e + 1) else (q, e)
       if r.2 > 971 then none else some r) := by
  unfold nearestFloat64 floorLog2
  simp only [decide_eq_true_eq]

theorem scaled_le (n d K : Nat) (e : Int)
    (h : (n : ℚ) ≤ K * (2 : ℚ) ^ e * d) :
    n * 2 ^ (-e).toNat ≤ K * (d * 2 ^ e.toNat) := by
  have h2 : (0 : ℚ) < 2 := by norm_num
  have hpos : (0 : ℚ) < (2 : ℚ) ^ (-e).toNat := pow_pos h2 _
  rw [two_zpow_split e] at h
  have h3 : (n : ℚ) * (2 : ℚ) ^ (-e).toNat ≤ K * (d * (2 : ℚ) ^ e.toNat) := by
    have := mul_le_mul_of_nonneg_right h (le_of_lt hpos)
    calc (n : ℚ) * (2 : ℚ) ^ (-e).toNat
        ≤ K * ((2 : ℚ) ^ e.toNat / (2 : ℚ) ^ (-e).toNat) * d * (2 : ℚ) ^ (-e).toNat := this
      _ = K * (d * (2 : ℚ) ^ e.toNat) := by
          field_simp
          ring
  have : ((n * 2 ^ (-e).toNat : Nat) : ℚ) ≤ ((K * (d * 2 ^ e.toNat) : Nat) : ℚ) := by
    push_cast; exact h3
  exact_mod_cast this


theorem scaled_den_pos (d : Nat) (e : Int) (hd : 0 < d) : 0 < d * 2 ^ e.toNat :=
  Nat.mul_pos hd (Nat.two_pow_pos _)

theorem nearestFloat64_bounds (n d m : Nat) (e1 : Int) (hn : 0 < n) (hd : 0 < d)
    (h : nearestFloat64 n d = some (m, e1)) : m < 2 ^ 53 ∧ e1 ≤ 971 := by
  rw [nearestFloat64_eq] at h
  simp only at h
  generalize he : max (floorLog2 n d - 52) (-1074) = e at h
  obtain ⟨_, hup⟩ := floorLog2_bounds n d hn hd
  have h2 : (1 : ℚ) ≤ 2 := by norm_num
  have hdq : (0 : ℚ) ≤ d := by exact_mod_cast Nat.zero_le d
  have hq : roundHalfEven (n * 2 ^ (-e).toNat) (d * 2 ^ e.toNat) ≤ 2 ^ 53 := by
    apply roundHalfEven_le _ _ _ (scaled_den_pos d e hd)
    apply scaled_le n d (2 ^ 53) e
    have hle : (2 : ℚ) ^ (floorLog2 n d + 1) ≤ (2 : ℚ) ^ (53 + e) :=
      zpow_le_zpow_right₀ h2 (by omega)
    calc (n : ℚ) ≤ (2 : ℚ) ^ (floorLog2 n d + 1) * d := le_of_lt hup
      _ ≤ (2 : ℚ) ^ (53 + e) * d := mul_le_mul_of_nonneg_right hle hdq
      _ = ((2 ^ 53 : Nat) : ℚ) * (2 : ℚ) ^ e * d := by
          rw [zpow_add₀ (by norm_num : (2 : ℚ) ≠ 0)]; norm_num
  generalize roundHalfEven (n * 2 ^ (-e).toNat) (d * 2 ^ e.toNat) = q at h hq
  by_cases hq53 : q = 2 ^ 53
  · rw [if_pos hq53] at h
    simp only at h
    split at h
    · cases h
    · rename_i hr
      cases h
      exact ⟨by decide, by omega⟩
  · rw [if_neg hq53] at h
    simp only at h
    split at h
    · cases h
    · rename_i hr
      cases h
      exact ⟨by omega, by omega⟩

set_option exponentiation.threshold 2000 in
theorem nearestFloat64_ne_none (n d : Nat) (hn : 0 < n) (hd : 0 < d)
    (h : n ≤ (2 ^ 53 - 1) * 2 ^ 971 * d) : nearestFloat64 n d ≠ none := by
  rw [nearestFloat64_eq]
  simp only
  generalize he : max (floorLog2 n d - 52) (-1074) = e
  obtain ⟨hlow, _⟩ := floorLog2_bounds n d hn hd
  have hdq : (0 : ℚ) < d := by exact_mod_cast hd
  have hnq : (n : ℚ) ≤ ((2 ^ 53 - 1 : Nat) : ℚ) * (2 : ℚ) ^ (971 : Int) * d := by
    have : ((n : Nat) : ℚ) ≤ (((2 ^ 53 - 1) * 2 ^ 971 * d : Nat) : ℚ) := by exact_mod_cast h
    rw [Nat.cast_mul, Nat.cast_mul] at this
    rw [show (971 : Int) = ((971 : Nat) : Int) from rfl, zpow_natCast]
    calc (n : ℚ) ≤ _ := this
      _ = _ := by push_cast; ring
  have hfl : floorLog2 n d < 1024 := by
    have h1 : (2 : ℚ) ^ floorLog2 n d * d < (2 : ℚ) ^ (1024 : Int) * d := by
      calc (2 : ℚ) ^ floorLog2 n d * d ≤ n := hlow
        _ ≤ ((2 ^ 53 - 1 : Nat) : ℚ) * (2 : ℚ) ^ (971 : Int) * d := hnq
        _ < (2 : ℚ) ^ (53 : Int) * (2 : ℚ) ^ (971 : Int) * d := by
            apply mul_lt_mul_of_pos_right _ hdq
            apply mul_lt_mul_of_pos_right _ (zpow_pos (by norm_num) _)
            norm_num
        _ = (2 : ℚ) ^ (1024 : Int) * d := by
            rw [← zpow_add₀ (by norm_num : (2 : ℚ) ≠ 0)]; norm_num
    have h3 := lt_of_mul_lt_mul_right h1 (le_of_lt hdq)
    exact (zpow_lt_zpow_iff_right₀ (by norm_num : (1 : ℚ) < 2)).mp h3
  have he971 : e ≤ 971 := by omega
  by_cases hlt : e < 971
  · split_ifs <;> simp only at * <;> first | omega | exact Option.some_ne_none _
  · have heq : e = 971 := by omega
    have hq : roundHalfEven (n * 2 ^ (-e).toNat) (d * 2 ^ e.toNat) ≤ 2 ^ 53 - 1 := by
      apply roundHalfEven_le _ _ _ (scaled_den_pos d e hd)
      apply scaled_le n d (2 ^ 53 - 1) e
      rw [heq]; exact hnq
    have hne : roundHalfEven (n * 2 ^ (-e).toNat) (d * 2 ^ e.toNat) ≠ 2 ^ 53 := by omega
    rw [if_neg hne]
    simp only
    rw [if_neg (by omega)]
    exact Option.some_ne_none _

/-! ## strconv.ParseFloat on the `%f` rendering -/

theorem isDigit_ne (c d : Char) (h : isDigit c = true) (hd : isDigit d = false) : c ≠ d := by
  rintro rfl; rw [h] at hd; cases hd

theorem lowerASCII_digit (c : Char) (h : isDigit c = true) : lowerASCII c = c := by
  unfold lowerASCII
  unfold isDigit at h
  simp only [Bool.and_eq_true, decide_eq_true_eq] at h
  rw [if_neg (by omega)]

theorem scanMantissa_nil (hex : Bool) (st : MantScan) : scanMantissa hex [] st = (st, []) := rfl

theorem scanMantissa_digit (c : Char) (cs : List Char) (st : MantScan)
    (h : isDigit c = true) :
    scanMantissa false (c :: cs) st =
      if c = '0' ∧ st.nd = 0 then
        scanMantissa false cs { st with sawdigits := true, dp := st.dp - 1 }
      else
        scanMantissa false cs { st with sawdigits := true, nd := st.nd + 1,
                                        mantissa := st.mantissa * 10 + digitVal c } := by
  rw [scanMantissa]
  rw [if_neg (isDigit_ne c '_' h (by decide)), if_neg (isDigit_ne c '.' h (by decide)),
    if_pos h]
  rfl

theorem scanMantissa_dot (cs : List Char) (st : MantScan) (h : st.sawdot = false) :
    scanMantissa false ('.' :: cs) st =
      scanMantissa false cs { st with sawdot := true, dp := st.nd } := by
  rw [scanMantissa]
  rw [if_neg (by decide), if_pos rfl, h]
  rfl

theorem scanMantissa_digits (ds rest : List Char) (st : MantScan)
    (hds : ∀ c ∈ ds, isDigit c = true) (hinv : st.nd = 0 → st.mantissa = 0) :
    ∃ st1, scanMantissa false (ds ++ rest) st = scanMantissa false rest st1 ∧
      st1.sawdot = st.sawdot ∧ st1.underscores = st.underscores ∧
      (st.sawdigits = true ∨ ds ≠ [] → st1.sawdigits = true) ∧
      st1.mantissa = digitsValue st.mantissa ds ∧
      (st1.nd = 0 → st1.mantissa = 0) ∧
      st1.dp - st1.nd = st.dp - st.nd - ds.length := by
  induction ds generalizing st with
  | nil =>
    refine ⟨st, rfl, rfl, rfl, ?_, rfl, hinv, by simp⟩
    rintro (h | h)
    · exact h
    · exact absurd rfl h
  | cons c cs ih =>
    have hc := hds c (List.mem_cons_self _ _)
    have hcs : ∀ x ∈ cs, isDigit x = true := fun x hx => hds x (List.mem_cons_of_mem _ hx)
    rw [List.cons_append, scanMantissa_digit c _ st hc]
    by_cases hz : c = '0' ∧ st.nd = 0
    · rw [if_pos hz]
      obtain ⟨st1, h1, h2, h3, h4, h5, h6, h7⟩ :=
        ih { st with sawdigits := true, dp := st.dp - 1 } hcs hinv
      refine ⟨st1, h1, h2, h3, fun _ => h4 (Or.inl rfl), ?_, h6, ?_⟩
      · rw [h5]
        show digitsValue st.mantissa cs = digitsValue (st.mantissa * 10 + digitVal c) cs
        rw [hinv hz.2, hz.1]
        rfl
      · rw [h7]; simp only [List.length_cons]; push_cast; omega
    · rw [if_neg hz]
      obtain ⟨st1, h1, h2, h3, h4, h5, h6, h7⟩ :=
        ih { st with sawdigits := true, nd := st.nd + 1,
                     mantissa := st.mantissa * 10 + digitVal c } hcs
          (fun h => absurd h (Nat.succ_ne_zero _))
      refine ⟨st1, h1, h2, h3, fun _ => h4 (Or.inl rfl), ?_, h6, ?_⟩
      · rw [h5]; rfl
      · rw [h7]; simp only [List.length_cons]; push_cast; omega

theorem scanMantissa_decimal (D P : List Char) (hD : ∀ c ∈ D, isDigit c = true)
    (hP : ∀ c ∈ P, isDigit c = true) (hne : D ≠ []) :
    ∃ st, scanMantissa false (D ++ '.' :: P) {} = (st, []) ∧
      st.sawdigits = true ∧ st.underscores = false ∧ st.sawdot = true ∧
      st.mantissa = digitsValue 0 (D ++ P) ∧
      st.dp - st.nd = -(P.length : Int) := by
  obtain ⟨st1, h1, h2, h3, h4, h5, h6, _⟩ :=
    scanMantissa_digits D ('.' :: P) {} hD (fun _ => rfl)
  obtain ⟨st2, k1, k2, k3, k4, k5, _, k7⟩ :=
    scanMantissa_digits P [] { st1 with sawdot := true, dp := st1.nd } hP h6
  refine ⟨st2, ?_, k4 (Or.inl (h4 (Or.inr hne))), ?_, k2, ?_, ?_⟩
  · rw [h1, scanMantissa_dot _ _ h2]
    have := k1
    rw [List.append_nil] at this
    rw [this, scanMantissa_nil]
  · rw [k3]; exact h3
  · rw [k5, digitsValue_append]
    show digitsValue st1.mantissa P = _
    rw [h5]
  · rw [k7]
    show (st1.nd : Int) - st1.nd - P.length = _
    omega


theorem commonPrefixLen_digit (c : Char) (cs : List Char) (p : Char) (pre : List Char)
    (h : isDigit c = true) (hp : isDigit p = false) :
    commonPrefixLenIgnoreCase (c :: cs) (p :: pre) = 0 := by
  rw [commonPrefixLenIgnoreCase, lowerASCII_digit c h, if_neg (isDigit_ne c p h hp)]

theorem special_digit (c : Char) (cs : List Char) (h : isDigit c = true) :
    special (c :: cs) = none := by
  unfold special
  simp only
  rw [if_neg, if_neg, if_neg]
  · rintro (h1 | h1) <;> exact isDigit_ne c _ h (by decide) h1
  · rintro (h1 | h1) <;> exact isDigit_ne c _ h (by decide) h1
  · rintro (h1 | h1) <;> exact isDigit_ne c _ h (by decide) h1

theorem special_minus_digit (c : Char) (cs : List Char) (h : isDigit c = true) :
    special ('-' :: c :: cs) = none := by
  unfold special
  simp only
  rw [if_pos (Or.inr trivial)]
  unfold specialInf
  have e : commonPrefixLenIgnoreCase (c :: cs) "infinity".data = 0 :=
    commonPrefixLen_digit c cs 'i' _ h (by decide)
  rw [e]
  decide

theorem hexPrefix_digits (c : Char) (D P : List Char)
    (hD : ∀ x ∈ D, isDigit x = true) : hexPrefix (c :: D ++ '.' :: P) = false := by
  cases D with
  | nil =>
    cases P with
    | nil => rfl
    | cons p P => simp [hexPrefix]
  | cons d D =>
    have hd := hD d (List.mem_cons_self _ _)
    have h1 : d ≠ 'x' := isDigit_ne d _ hd (by decide)
    have h2 : d ≠ 'X' := isDigit_ne d _ hd (by decide)
    cases D with
    | nil => simp [hexPrefix, h1, h2]
    | cons d2 D => simp [hexPrefix, h1, h2]

theorem readFloat_body (s : List Char) (neg : Bool) (c : Char) (D P : List Char)
    (hc : isDigit c = true) (hD : ∀ x ∈ D, isDigit x = true)
    (hP : ∀ x ∈ P, isDigit x = true) :
    (let scan := scanMantissa (hexPrefix (c :: D ++ '.' :: P))
        (if hexPrefix (c :: D ++ '.' :: P) then (c :: D ++ '.' :: P).drop 2
          else c :: D ++ '.' :: P) {}
     if !scan.1.sawdigits then none
     else
       let dp : Int := if scan.1.sawdot then scan.1.dp else scan.1.nd
       readFloatExponent s neg (hexPrefix (c :: D ++ '.' :: P)) scan.1
         (if hexPrefix (c :: D ++ '.' :: P) then dp * 4 else dp) scan.2) =
      some ⟨neg, false, digitsValue 0 (c :: D ++ P),
        if digitsValue 0 (c :: D ++ P) = 0 then 0 else -(P.length : Int), []⟩ := by
  obtain ⟨st, h1, h2, h3, h4, h5, h6⟩ :=
    scanMantissa_decimal (c :: D) P
      (fun x hx => by rcases List.mem_cons.mp hx with h | h; exact h ▸ hc; exact hD x h)
      hP (List.cons_ne_nil _ _)
  rw [hexPrefix_digits c D P hD]
  simp only [Bool.false_eq_true, if_false, h1, h2, h4, Bool.not_true, if_true]
  unfold readFloatExponent readFloatFinish
  simp only [Bool.false_eq_true, if_false, h3, Bool.false_and, h5]
  congr 2
  by_cases hm : digitsValue 0 (c :: D ++ P) = 0
  · rw [if_pos hm, if_pos hm]
  · rw [if_neg hm, if_neg hm]; omega

theorem readFloat_unsigned (c : Char) (D P : List Char) (hc : isDigit c = true)
    (hD : ∀ x ∈ D, isDigit x = true) (hP : ∀ x ∈ P, isDigit x = true) :
    readFloat (c :: D ++ '.' :: P) =
      some ⟨false, false, digitsValue 0 (c :: D ++ P),
        if digitsValue 0 (c :: D ++ P) = 0 then 0 else -(P.length : Int), []⟩ := by
  have hb := readFloat_body (c :: D ++ '.' :: P) false c D P hc hD hP
  have h1 : c ≠ '+' := isDigit_ne c _ hc (by decide)
  have h2 : c ≠ '-' := isDigit_ne c _ hc (by decide)
  rw [← hb]
  show readFloat (c :: (D ++ '.' :: P)) = _
  rw [readFloat]
  have hbeq : (c == '-') = false := by
    cases hb2 : c == '-' with
    | false => rfl
    | true => exact absurd (beq_iff_eq.mp hb2) h2
  simp only [h1, h2, or_self, if_false, hbeq]
  rfl

theorem readFloat_negative (c : Char) (D P : List Char) (hc : isDigit c = true)
    (hD : ∀ x ∈ D, isDigit x = true) (hP : ∀ x ∈ P, isDigit x = true) :
    readFloat ('-' :: c :: D ++ '.' :: P) =
      some ⟨true, false, digitsValue 0 (c :: D ++ P),
        if digitsValue 0 (c :: D ++ P) = 0 then 0 else -(P.length : Int), []⟩ := by
  have hb := readFloat_body ('-' :: c :: D ++ '.' :: P) true c D P hc hD hP
  rw [← hb]
  show readFloat ('-' :: (c :: D ++ '.' :: P)) = _
  rw [readFloat]
  simp only [or_true, if_true]
  rfl

theorem toFloat64_wf (neg : Bool) (n d : Nat) (f : Float64) (hd : 0 < d)
    (h : toFloat64 neg n d = .ok f) : f.WF := by
  unfold toFloat64 at h
  by_cases hn : n = 0
  · rw [if_pos hn] at h
    cases h
    exact ⟨by decide, by decide⟩
  · rw [if_neg hn] at h
    cases hr : nearestFloat64 n d with
    | none => rw [hr] at h; cases h
    | some r =>
      obtain ⟨m, e⟩ := r
      rw [hr] at h
      cases h
      exact nearestFloat64_bounds n d m e (Nat.pos_of_ne_zero hn) hd hr

theorem toFloat64_ok (neg : Bool) (n d : Nat) (hd : 0 < d)
    (h : n ≤ (2 ^ 53 - 1) * 2 ^ 971 * d) : ∃ v, toFloat64 neg n d = .ok v := by
  unfold toFloat64
  by_cases hn : n = 0
  · rw [if_pos hn]; exact ⟨_, rfl⟩
  · rw [if_neg hn]
    cases hr : nearestFloat64 n d with
    | none => exact absurd hr (nearestFloat64_ne_none n d (Nat.pos_of_ne_zero hn) hd h)
    | some r => exact ⟨_, rfl⟩

theorem specialInf_wf (neg : Bool) (k : Nat) (s : List Char) (f : Float64) (n : Nat)
    (h : specialInf neg k s = some (f, n)) : f.WF := by
  unfold specialInf at h
  dsimp only at h
  split_ifs at h <;> cases h <;> trivial

theorem special_wf (s : List Char) (f : Float64) (n : Nat)
    (h : special s = some (f, n)) : f.WF := by
  unfold special at h
  split at h
  · cases h
  · split at h
    · exact specialInf_wf _ _ _ f n h
    · split at h
      · exact specialInf_wf _ _ _ f n h
      · split at h
        · split at h
          · cases h; trivial
          · cases h
        · cases h

theorem ParseFloat_wf (s : String) (f : Float64) (h : ParseFloat s = .ok f) : f.WF := by
  unfold ParseFloat at h
  simp only at h
  split at h
  · rename_i f1 n hs
    split at h
    · cases h; exact special_wf _ _ _ hs
    · cases h
  · split at h
    · cases h
    · rename_i r hr
      split at h
      · cases h
      · split at h
        · exact toFloat64_wf _ _ _ f Nat.one_pos h
        · refine toFloat64_wf _ _ _ f ?_ h
          split
          · exact pow_pos (by decide) _
          · exact pow_pos (by decide) _


theorem pad6_isDigit (x : Nat) : ∀ c ∈ pad6 x, isDigit c = true := by
  intro c hc
  unfold pad6 at hc
  simp only [List.mem_cons, List.mem_singleton, List.not_mem_nil, or_false] at hc
  rcases hc with h | h | h | h | h | h <;> rw [h] <;> exact isDigit_digitChar _

theorem pad6_length (x : Nat) : (pad6 x).length = 6 := rfl

theorem digitsValue_pad6 (a x : Nat) :
    digitsValue a (pad6 x) = a * 10 ^ 6 + x % 10 ^ 6 := by
  unfold pad6
  simp only [digitsValue_cons, digitsValue_nil, digitVal_digitChar]
  omega

theorem ParseFloat_decimal (neg : Bool) (c : Char) (D P : List Char) (hc : isDigit c = true)
    (hD : ∀ x ∈ D, isDigit x = true) (hP : ∀ x ∈ P, isDigit x = true) (hlen : 0 < P.length) :
    ParseFloat (String.mk ((if neg then ['-'] else []) ++ c :: D ++ '.' :: P)) =
      toFloat64 neg (digitsValue 0 (c :: D ++ P)) (10 ^ P.length) := by
  unfold ParseFloat
  simp only
  cases neg with
  | false =>
    simp only [Bool.false_eq_true, if_false, List.nil_append]
    rw [show (c :: D ++ '.' :: P) = c :: (D ++ '.' :: P) from rfl, special_digit c _ hc]
    simp only
    rw [show c :: (D ++ '.' :: P) = (c :: D ++ '.' :: P) from rfl,
      readFloat_unsigned c D P hc hD hP]
    simp only [ne_eq, not_true_eq_false, if_false, Bool.false_eq_true]
    by_cases hm : digitsValue 0 (c :: D ++ P) = 0
    · simp only [hm, if_true, le_refl, Int.toNat_zero, pow_zero, Nat.mul_one]
      unfold toFloat64
      rfl
    · simp only [hm, if_false]
      rw [if_neg (by omega)]
      simp only [neg_neg, Int.toNat_ofNat]
  | true =>
    simp only [if_true, List.singleton_append]
    rw [show ('-' :: c :: D ++ '.' :: P) = '-' :: c :: (D ++ '.' :: P) from rfl,
      special_minus_digit c _ hc]
    simp only
    rw [show '-' :: c :: (D ++ '.' :: P) = ('-' :: c :: D ++ '.' :: P) from rfl,
      readFloat_negative c D P hc hD hP]
    simp only [ne_eq, not_true_eq_false, if_false, Bool.false_eq_true]
    by_cases hm : digitsValue 0 (c :: D ++ P) = 0
    · simp only [hm, if_true, le_refl, Int.toNat_zero, pow_zero, Nat.mul_one]
      unfold toFloat64
      rfl
    · simp only [hm, if_false]
      rw [if_neg (by omega)]
      simp only [neg_neg, Int.toNat_ofNat]

set_option exponentiation.threshold 2000 in
theorem formatF_scaled_le (m : Nat) (e : Int) (hm : m < 2 ^ 53) (he : e ≤ 971) :
    (if 0 ≤ e then m * 2 ^ e.toNat * 10 ^ 6
      else roundHalfEven (m * 10 ^ 6) (2 ^ (-e).toNat)) ≤
      (2 ^ 53 - 1) * 2 ^ 971 * 10 ^ 6 := by
  have hm1 : m ≤ 2 ^ 53 - 1 := by omega
  by_cases h0 : 0 ≤ e
  · rw [if_pos h0]
    apply Nat.mul_le_mul_right
    exact Nat.mul_le_mul hm1 (Nat.pow_le_pow_right (by decide) (by omega))
  · rw [if_neg h0]
    have h1 : roundHalfEven (m * 10 ^ 6) (2 ^ (-e).toNat) ≤ m * 10 ^ 6 :=
      roundHalfEven_le _ _ _ (Nat.two_pow_pos _)
        (Nat.le_mul_of_pos_right _ (Nat.two_pow_pos _))
    calc roundHalfEven (m * 10 ^ 6) (2 ^ (-e).toNat) ≤ m * 10 ^ 6 := h1
      _ ≤ (2 ^ 53 - 1) * 10 ^ 6 := Nat.mul_le_mul_right _ hm1
      _ ≤ (2 ^ 53 - 1) * 2 ^ 971 * 10 ^ 6 := by
          apply Nat.mul_le_mul_right
          exact Nat.le_mul_of_pos_right _ (Nat.two_pow_pos _)

theorem ParseFloat_formatF_ok (f : Float64) (hwf : f.WF) :
    ∃ v, ParseFloat (formatF f) = .ok v := by
  cases f with
  | nan => exact ⟨.nan, by decide⟩
  | inf neg =>
    cases neg
    · exact ⟨.inf false, by decide⟩
    · exact ⟨.inf true, by decide⟩
  | finite neg m e =>
    obtain ⟨hm, he⟩ := hwf
    unfold formatF
    simp only
    generalize hsc : (if 0 ≤ e then m * 2 ^ e.toNat * 10 ^ 6
      else roundHalfEven (m * 10 ^ 6) (2 ^ (-e).toNat)) = scaled
    have hle := formatF_scaled_le m e hm he
    rw [hsc] at hle
    obtain ⟨c, D, hcD, hc⟩ := natDigits_cons (scaled / 10 ^ 6)
    have hall := all_isDigit_natDigits (scaled / 10 ^ 6)
    rw [hcD] at hall
    have hD : ∀ x ∈ D, isDigit x = true := by
      intro x hx
      exact (List.all_eq_true.mp hall) x (List.mem_cons_of_mem _ hx)
    have hval : digitsValue 0 (c :: D ++ pad6 (scaled % 10 ^ 6)) = scaled := by
      rw [digitsValue_append, ← hcD, digitsValue_natDigits, digitsValue_pad6]
      omega
    rw [hcD]
    have hp := ParseFloat_decimal neg c D (pad6 (scaled % 10 ^ 6)) hc hD
      (pad6_isDigit _) (by rw [pad6_length]; decide)
    rw [show (if neg = true then ['-'] else []) ++ c :: D ++ '.' :: pad6 (scaled % 10 ^ 6) =
      (if neg = true then ['-'] else []) ++ (c :: D) ++ '.' :: pad6 (scaled % 10 ^ 6) from by
        simp] at hp
    rw [hp, hval, pad6_length]
    exact toFloat64_ok neg scaled (10 ^ 6) (by decide) hle

/-! ## TypeAsserter never returns an error -/

theorem coerce_ne_nil (s : String) : coerce s ≠ .nil := by
  unfold coerce
  split
  · intro h; cases h
  · split
    · intro h; cases h
    · intro h; cases h

theorem typeAsserter_valueType (s : String) (ta : TypeAssert)
    (h : TypeAsserter s = .ok (ta, none)) :
    ta.ValueType = "int" ∨ ta.ValueType = "float" ∨ ta.ValueType = "string" := by
  unfold TypeAsserter at h
  split at h
  · split at h
    · cases h
    · split at h
      · cases h
      · cases h; right; right; rfl
  · split at h
    · cases h
    · cases h; left; rfl
  · split at h
    · cases h
    · cases h; right; left; rfl
  · rename_i hc
    exact absurd hc (coerce_ne_nil s)

theorem ParseInt_range (s : String) (v : Int) (h : ParseInt s = .ok v) :
    -2 ^ 63 ≤ v ∧ v < 2 ^ 63 := by
  unfold ParseInt at h
  split at h
  · cases h
  · rename_i c rest _
    simp only at h
    split at h
    · cases h
    · rename_i un flag _
      split_ifs at h with h1 h2
      · rename_i hneg
        cases h
        simp only [Bool.and_eq_true, decide_eq_true_eq, not_and, not_lt] at h2
        have := h2 hneg
        omega
      · rename_i hneg
        cases h
        simp only [Bool.and_eq_true, Bool.not_eq_true', decide_eq_true_eq, not_and,
          not_le] at h1
        have : (c == '-') = false := by
          cases hb : c == '-' with
          | false => rfl
          | true => exact absurd hb hneg
        have := h1 this
        omega

theorem coerce_cases (s : String) :
    (∃ v, ParseInt s = .ok v ∧ coerce s = .int v) ∨
    (∃ f, ParseFloat s = .ok f ∧ coerce s = .float f) ∨
    coerce s = .str s := by
  unfold coerce
  cases h1 : ParseInt s with
  | ok v => exact Or.inl ⟨v, rfl, rfl⟩
  | error e =>
    cases h2 : ParseFloat s with
    | ok f => exact Or.inr (Or.inl ⟨f, rfl, rfl⟩)
    | error e2 => exact Or.inr (Or.inr rfl)

theorem typeAsserter_of_parseInt (s : String) (v : Int) (hp : ParseInt s = .ok v)
    (hc : coerce s = .int v) :
    TypeAsserter s =
      .ok ({ Value := .str s, ConvertedValue := .int v, ValueType := "int",
             IsTruthy := (IsTruthyInt v).1, TruthyValue := (IsTruthyInt v).2 }, none) := by
  obtain ⟨hlo, hhi⟩ := ParseInt_range s v hp
  unfold TypeAsserter
  rw [hc]
  simp only [Atoi, ParseInt_formatInt v hlo hhi]

theorem typeAsserter_of_parseFloat (s : String) (f : Float64) (hp : ParseFloat s = .ok f)
    (hc : coerce s = .float f) :
    ∃ v, ParseFloat (formatF f) = .ok v ∧ TypeAsserter s =
      .ok ({ Value := .str s, ConvertedValue := .float v, ValueType := "float",
             IsTruthy := (IsTruthyFloat v).1, TruthyValue := (IsTruthyFloat v).2 }, none) := by
  obtain ⟨v, hv⟩ := ParseFloat_formatF_ok f (ParseFloat_wf s f hp)
  refine ⟨v, hv, ?_⟩
  unfold TypeAsserter
  rw [hc]
  simp only [hv]

theorem typeAsserter_error_none (s : String) (ta : TypeAssert) (err : Option GoError)
    (h : TypeAsserter s = .ok (ta, err)) : err = none := by
  rcases coerce_cases s with ⟨v, hp, hc⟩ | ⟨f, hp, hc⟩ | hc
  · rw [typeAsserter_of_parseInt s v hp hc] at h
    cases h; rfl
  · obtain ⟨v, _, hv⟩ := typeAsserter_of_parseFloat s f hp hc
    rw [hv] at h
    cases h; rfl
  · unfold TypeAsserter at h
    rw [hc] at h
    simp only at h
    split at h
    · cases h
    · split at h
      · cases h
      · cases h; rfl

theorem classifiable_of_nonblank (s : String) (h : TrimSpace s ≠ "") : Classifiable s := by
  rcases coerce_cases s with ⟨v, hp, hc⟩ | ⟨f, hp, hc⟩ | hc
  · exact ⟨_, typeAsserter_of_parseInt s v hp hc⟩
  · obtain ⟨v, _, hv⟩ := typeAsserter_of_parseFloat s f hp hc
    exact ⟨_, hv⟩
  · obtain ⟨a, ha, _⟩ := IsArrayString_nonblank s h
    obtain ⟨b, hb, _⟩ := IsJsonString_nonblank s h
    unfold Classifiable TypeAsserter
    rw [hc]
    simp only [ha, hb]
    exact ⟨_, rfl⟩

theorem Classifiable.eq {s : String} (h : Classifiable s) :
    TypeAsserter s = .ok (assertOf s, none) := by
  obtain ⟨ta, hta⟩ := h
  unfold assertOf
  rw [hta]

theorem Classifiable.valueType {s : String} (h : Classifiable s) :
    valueTypeOf s = "int" ∨ valueTypeOf s = "float" ∨ valueTypeOf s = "string" :=
  typeAsserter_valueType s (assertOf s) h.eq

theorem Classifiable.valueType_ne_empty {s : String} (h : Classifiable s) :
    valueTypeOf s ≠ "" := by
  rcases h.valueType with h | h | h <;> rw [h] <;> decide

theorem compareRow_nil (frt : List TypeAssert) (j : Nat) : compareRow frt j [] = .ok false := by
  cases j <;> rfl

theorem compareRow_cons (frt : List TypeAssert) (j : Nat) (col : String) (rest : List String)
    (h : Classifiable col) :
    compareRow frt j (col :: rest) =
      match frt.get? j with
      | none => .error .indexOutOfRange
      | some ref =>
        if valueTypeOf col ≠ ref.ValueType then .ok true
        else compareRow frt (j + 1) rest := by
  rw [compareRow]
  simp only [h.eq, Option.isNone_none, if_true]
  rfl

theorem compareRow_drop (frt : List TypeAssert) (j : Nat) (row : List String)
    (h : ∀ f ∈ row, Classifiable f) :
    compareRow frt j row = compareRow (frt.drop j) 0 row := by
  induction row generalizing frt j with
  | nil => rw [compareRow_nil, compareRow_nil]
  | cons col rest ih =>
    have hc := h col (List.mem_cons_self _ _)
    have hr : ∀ f ∈ rest, Classifiable f := fun f hf => h f (List.mem_cons_of_mem _ hf)
    rw [compareRow_cons _ _ _ _ hc, compareRow_cons _ _ _ _ hc]
    have e1 : (frt.drop j).get? 0 = frt.get? j := by
      rw [List.get?_eq_getElem?, List.get?_eq_getElem?, List.getElem?_drop]; rfl
    rw [e1, ih frt (j + 1) hr, ih (frt.drop j) (0 + 1) hr, List.drop_drop]

theorem compareRow_eq_differsZ (slots : List TypeAssert) (row : List String)
    (h : ∀ f ∈ row, Classifiable f) :
    compareRow (slots ++ [({} : TypeAssert)]) 0 row = .ok (differsZ slots row) := by
  induction row generalizing slots with
  | nil => rw [compareRow_nil]; cases slots <;> rfl
  | cons col rest ih =>
    have hc := h col (List.mem_cons_self _ _)
    have hr : ∀ f ∈ rest, Classifiable f := fun f hf => h f (List.mem_cons_of_mem _ hf)
    rw [compareRow_cons _ _ _ _ hc]
    cases slots with
    | nil =>
      have hne := hc.valueType_ne_empty
      simp only [List.nil_append, List.get?_cons_zero, differsZ]
      rw [if_pos]
      exact hne
    | cons r refs =>
      simp only [List.cons_append, List.get?_cons_zero, differsZ]
      by_cases hv : valueTypeOf col = r.ValueType
      · rw [if_neg (not_not.mpr hv), compareRow_drop _ _ _ hr]
        simp only [List.drop_succ_cons, List.drop_zero]
        rw [ih refs hr]
        simp [hv]
      · rw [if_pos hv]
        simp [hv]

theorem compareRows_eq_any (slots : List TypeAssert) (w : Int) (i : Nat)
    (rows : List (List String)) (h : ∀ row ∈ rows, ∀ f ∈ row, Classifiable f) :
    compareRows (slots ++ [({} : TypeAssert)]) w i rows =
      .ok ((rows.take (w - i).toNat).any (differsZ slots)) := by
  induction rows generalizing i with
  | nil => simp [compareRows]
  | cons row rest ih =>
    have hrow := h row (List.mem_cons_self _ _)
    have hrest : ∀ r ∈ rest, ∀ f ∈ r, Classifiable f :=
      fun r hr => h r (List.mem_cons_of_mem _ hr)
    rw [compareRows]
    by_cases hi : (i : Int) < w
    · rw [if_pos hi, compareRow_eq_differsZ slots row hrow]
      have e : (w - (i : Int)).toNat = (w - ((i + 1 : Nat) : Int)).toNat + 1 := by
        push_cast; omega
      rw [e, List.take_succ_cons, List.any_cons]
      cases hd : differsZ slots row with
      | true => simp
      | false => simp only [Bool.false_or]; exact ih (i + 1) hrest
    · rw [if_neg hi]
      have e : (w - (i : Int)).toNat = 0 := by omega
      rw [e]; rfl

theorem firstRowSlots_eq (row : List String) (h : ∀ f ∈ row, Classifiable f) :
    firstRowSlots row = .ok (row.map assertOf) := by
  induction row with
  | nil => rfl
  | cons col rest ih =>
    have hc := h col (List.mem_cons_self _ _)
    have hr : ∀ f ∈ rest, Classifiable f := fun f hf => h f (List.mem_cons_of_mem _ hf)
    rw [firstRowSlots]
    simp only [hc.eq, ih hr]
    rfl

theorem IsFirstRowLabels_eq_any (row0 : List String) (later : List (List String)) (w : Int)
    (h : ∀ row ∈ row0 :: later, ∀ f ∈ row, Classifiable f) :
    IsFirstRowLabels (row0 :: later) w =
      .ok ((later.take (w - 1).toNat).any (differsZ (row0.map assertOf))) := by
  have h0 := h row0 (List.mem_cons_self _ _)
  have hl : ∀ r ∈ later, ∀ f ∈ r, Classifiable f :=
    fun r hr => h r (List.mem_cons_of_mem _ hr)
  unfold IsFirstRowLabels
  simp only [firstRowSlots_eq row0 h0]
  rw [compareRows_eq_any _ _ _ _ hl]
  congr 2
  simp only [List.length_cons]
  by_cases hw : w > ((later.length + 1 : Nat) : Int)
  · rw [if_pos hw]
    rw [List.take_of_length_le (by push_cast at hw ⊢; omega),
      List.take_of_length_le (by push_cast at hw ⊢; omega)]
  · rw [if_neg hw]; rfl

theorem differsZ_iff (slots : List TypeAssert) (row : List String) :
    differsZ slots row = true ↔
      (∃ (j : Nat) (f : String) (r : TypeAssert), row[j]? = some f ∧ slots[j]? = some r ∧ valueTypeOf f ≠ r.ValueType) ∨
        slots.length < row.length := by
  induction row generalizing slots with
  | nil =>
    have e : differsZ slots [] = false := by cases slots <;> rfl
    rw [e]
    constructor
    · intro h; cases h
    · rintro (⟨j, f, r, hf, _⟩ | h)
      · simp at hf
      · simp at h
  | cons col rest ih =>
    cases slots with
    | nil =>
      simp only [differsZ, List.length_nil, List.length_cons, true_iff]
      right; omega
    | cons r refs =>
      simp only [differsZ, Bool.or_eq_true, bne_iff_ne, ne_eq, List.length_cons, ih refs]
      constructor
      · rintro (h | ⟨j, f, r2, hf, hr, hne⟩ | h)
        · exact Or.inl ⟨0, col, r, List.getElem?_cons_zero, List.getElem?_cons_zero, h⟩
        · exact Or.inl ⟨j + 1, f, r2, by simpa using hf, by simpa using hr, hne⟩
        · right; omega
      · rintro (⟨j, f, r2, hf, hr, hne⟩ | h)
        · cases j with
          | zero =>
            simp only [List.getElem?_cons_zero, Option.some.injEq] at hf hr
            subst hf hr
            exact Or.inl hne
          | succ j =>
            simp only [List.getElem?_cons_succ] at hf hr
            exact Or.inr (Or.inl ⟨j, f, r2, hf, hr, hne⟩)
        · right; right; omega

theorem differsZ_take (slots : List TypeAssert) (row : List String) :
    differsZ slots row =
      (differsZ slots (row.take slots.length) || decide (slots.length < row.length)) := by
  induction row generalizing slots with
  | nil => cases slots <;> rfl
  | cons col rest ih =>
    cases slots with
    | nil => simp [differsZ]
    | cons r refs =>
      simp only [differsZ, List.length_cons, List.take_succ_cons, ih refs, Bool.or_assoc,
        Nat.add_lt_add_iff_right]

theorem differsZ_map_iff (row0 row : List String) :
    differsZ (row0.map assertOf) row = true ↔
      (∃ (j : Nat) (f g : String), row[j]? = some f ∧ row0[j]? = some g ∧ valueTypeOf f ≠ valueTypeOf g) ∨
        row0.length < row.length := by
  rw [differsZ_iff, List.length_map]
  constructor
  · rintro (⟨j, f, r, hf, hr, hne⟩ | h)
    · rw [List.getElem?_map] at hr
      cases hg : row0[j]? with
      | none => rw [hg] at hr; cases hr
      | some g =>
        rw [hg] at hr
        simp only [Option.map_some', Option.some.injEq] at hr
        subst hr
        exact Or.inl ⟨j, f, g, hf, hg, hne⟩
    · exact Or.inr h
  · rintro (⟨j, f, g, hf, hg, hne⟩ | h)
    · refine Or.inl ⟨j, f, assertOf g, hf, ?_, hne⟩
      rw [List.getElem?_map, hg]; rfl
    · exact Or.inr h

theorem mem_take_iff_getElem? {α : Type} (l : List α) (n : Nat) (a : α) :
    a ∈ l.take n ↔ ∃ k, k < n ∧ l[k]? = some a := by
  rw [List.mem_iff_getElem?]
  constructor
  · rintro ⟨k, hk⟩
    rw [List.getElem?_take] at hk
    by_cases hkn : k < n
    · rw [if_pos hkn] at hk; exact ⟨k, hkn, hk⟩
    · rw [if_neg hkn] at hk; cases hk
  · rintro ⟨k, hkn, hk⟩
    exact ⟨k, by rw [List.getElem?_take, if_pos hkn]; exact hk⟩


/-! ## C7, C8: header detection -/

theorem typeMismatchInWindow_iff (row0 : List String) (later : List (List String)) (w : Int) :
    TypeMismatchInWindow (row0 :: later) w ↔
      ∃ row ∈ later.take (w - 1).toNat, ∃ (j : Nat) (f g : String),
        row[j]? = some f ∧ row0[j]? = some g ∧ valueTypeOf f ≠ valueTypeOf g := by
  unfold TypeMismatchInWindow
  constructor
  · rintro ⟨i, j, row, r0, f, g, hi, hiw, hrow, hr0, hf, hg, hne⟩
    simp only [List.getElem?_cons_zero, Option.some.injEq] at hr0
    subst hr0
    cases i with
    | zero => omega
    | succ k =>
      simp only [List.getElem?_cons_succ] at hrow
      refine ⟨row, (mem_take_iff_getElem? later _ row).mpr ⟨k, ?_, hrow⟩, j, f, g, hf, hg, hne⟩
      push_cast at hiw
      omega
  · rintro ⟨row, hmem, j, f, g, hf, hg, hne⟩
    obtain ⟨k, hk, hrow⟩ := (mem_take_iff_getElem? later _ row).mp hmem
    have hklen : k < later.length := by
      rcases List.getElem?_eq_some_iff.mp hrow with ⟨h1, _⟩
      exact h1
    refine ⟨k + 1, j, row, row0, f, g, by omega, ?_, by simpa using hrow, List.getElem?_cons_zero, hf, hg, hne⟩
    simp only [List.length_cons]
    push_cast
    omega

/-- C7: for a non-empty sample `row0 :: later` of non-blank fields in which
no row of the window has more fields than row 0, and every window size `w`,
`IsFirstRowLabels` returns a boolean, which is true exactly when some row
`i` with `1 <= i < min(w, len(rows))` has a column `j` whose ValueType
differs from that of column `j` of row 0; any `w <= 1` gives false. -/
theorem IsFirstRowLabels_iff (row0 : List String) (later : List (List String)) (w : Int)
    (hcls : ∀ row ∈ row0 :: later, ∀ f ∈ row, TrimSpace f ≠ "")
    (hlen : ∀ row ∈ later.take (w - 1).toNat, row.length ≤ row0.length) :
    ∃ b, IsFirstRowLabels (row0 :: later) w = .ok b ∧
      (b = true ↔ TypeMismatchInWindow (row0 :: later) w) ∧
      (w ≤ 1 → b = false) := by
  have hc : ∀ row ∈ row0 :: later, ∀ f ∈ row, Classifiable f :=
    fun row hr f hf => classifiable_of_nonblank f (hcls row hr f hf)
  refine ⟨_, IsFirstRowLabels_eq_any row0 later w hc, ?_, ?_⟩
  · rw [typeMismatchInWindow_iff, List.any_eq_true]
    constructor
    · rintro ⟨row, hmem, hd⟩
      have hl := hlen row hmem
      rcases (differsZ_map_iff row0 row).mp hd with h | h
      · exact ⟨row, hmem, h⟩
      · omega
    · rintro ⟨row, hmem, h⟩
      exact ⟨row, hmem, (differsZ_map_iff row0 row).mpr (Or.inl h)⟩
  · intro hw
    have e : (w - 1).toNat = 0 := by omega
    rw [e]; rfl

set_option maxRecDepth 20000 in
/-- C7 witness: a header row ["id","name","age"] over ["1","Ann","30"] with
window 5, together with the two samples of the claim evaluated. -/
theorem IsFirstRowLabels_iff_witness :
    IsFirstRowLabels [["id", "name", "age"], ["1", "Ann", "30"]] 5 = .ok true ∧
    IsFirstRowLabels [["1", "Ann", "30"], ["2", "Bob", "31"]] 5 = .ok false ∧
    ∃ b, IsFirstRowLabels (["id", "name", "age"] :: [["1", "Ann", "30"]]) 5 = .ok b ∧
      (b = true ↔ TypeMismatchInWindow (["id", "name", "age"] :: [["1", "Ann", "30"]]) 5) ∧
      ((5 : Int) ≤ 1 → b = false) :=
  ⟨by decide, by decide,
    IsFirstRowLabels_iff ["id", "name", "age"] [["1", "Ann", "30"]] 5 (by decide) (by decide)⟩

/-- C8 (as amended): a field of a later row at column `len(rows[0])` is
compared with the empty ValueType of the extra slot and always differs. For
a non-empty sample of non-blank fields `IsFirstRowLabels` returns a boolean
(no out-of-range index), and the result is true exactly when the result on
the sample with every later row truncated to `len(rows[0])` fields is true
or some row of the window has more fields than row 0. -/
theorem IsFirstRowLabels_ragged (row0 : List String) (later : List (List String)) (w : Int)
    (hcls : ∀ row ∈ row0 :: later, ∀ f ∈ row, TrimSpace f ≠ "") :
    ∃ b bt, IsFirstRowLabels (row0 :: later) w = .ok b ∧
      IsFirstRowLabels (row0 :: later.map (List.take row0.length)) w = .ok bt ∧
      (b = true ↔ bt = true ∨ ∃ row ∈ later.take (w - 1).toNat, row0.length < row.length) := by
  have hc : ∀ row ∈ row0 :: later, ∀ f ∈ row, Classifiable f :=
    fun row hr f hf => classifiable_of_nonblank f (hcls row hr f hf)
  have hc2 : ∀ row ∈ row0 :: later.map (List.take row0.length), ∀ f ∈ row, Classifiable f := by
    intro row hrow f hf
    rcases List.mem_cons.mp hrow with h | h
    · subst h; exact hc _ (List.mem_cons_self _ _) f hf
    · obtain ⟨r, hr, rfl⟩ := List.mem_map.mp h
      exact hc r (List.mem_cons_of_mem _ hr) f (List.mem_of_mem_take hf)
  refine ⟨_, _, IsFirstRowLabels_eq_any row0 later w hc,
    IsFirstRowLabels_eq_any row0 _ w hc2, ?_⟩
  rw [← List.map_take, List.any_map, List.any_eq_true, List.any_eq_true]
  constructor
  · rintro ⟨row, hmem, hd⟩
    rw [differsZ_take, List.length_map, Bool.or_eq_true, decide_eq_true_eq] at hd
    rcases hd with hd | hd
    · exact Or.inl ⟨row, hmem, hd⟩
    · exact Or.inr ⟨row, hmem, hd⟩
  · rintro (⟨row, hmem, hd⟩ | ⟨row, hmem, hd⟩)
    · refine ⟨row, hmem, ?_⟩
      rw [differsZ_take, List.length_map, Bool.or_eq_true]
      exact Or.inl hd
    · refine ⟨row, hmem, ?_⟩
      rw [differsZ_take, List.length_map, Bool.or_eq_true, decide_eq_true_eq]
      exact Or.inr hd

set_option maxRecDepth 20000 in
/-- C8 witness: the amended statement at row0 = ["1"], row1 = ["2","3"],
window 2. -/
theorem IsFirstRowLabels_ragged_witness :
    ∃ b bt, IsFirstRowLabels (["1"] :: [["2", "3"]]) 2 = .ok b ∧
      IsFirstRowLabels (["1"] :: [["2", "3"]].map (List.take ["1"].length)) 2 = .ok bt ∧
      (b = true ↔ bt = true ∨
        ∃ row ∈ [["2", "3"]].take ((2 : Int) - 1).toNat, ["1"].length < row.length) :=
  IsFirstRowLabels_ragged ["1"] [["2", "3"]] 2 (by decide)

set_option maxRecDepth 20000 in
/-- C8 counterexample: with row0 = ["1"] and row1 = ["2","3"] the result is
true, while the sample truncated to one column gives false. -/
theorem IsFirstRowLabels_extra_column_true :
    IsFirstRowLabels [["1"], ["2", "3"]] 2 = .ok true ∧
    IsFirstRowLabels [["1"], ["2", "3"].take 1] 2 = .ok false := by
  decide

/-! ## C10: row type totals -/

theorem getTypeTotalsLoop_eq (row : List String) (tt : TypeTotals) (ctd : List TypeAssert)
    (h : ∀ f ∈ row, Classifiable f) :
    getTypeTotalsLoop row tt ctd =
      .ok ((row.map valueTypeOf).foldl countType tt, ctd ++ row.map assertOf) := by
  induction row generalizing tt ctd with
  | nil => simp [getTypeTotalsLoop]
  | cons col rest ih =>
    have hc := h col (List.mem_cons_self _ _)
    have hr : ∀ f ∈ rest, Classifiable f := fun f hf => h f (List.mem_cons_of_mem _ hf)
    rw [getTypeTotalsLoop]
    simp only [hc.eq]
    rw [ih _ _ hr]
    simp [valueTypeOf]

theorem countType_counters (tt : TypeTotals) (k : String) :
    (countType tt k).Nil = tt.Nil + (if k = "nil" then 1 else 0) ∧
    (countType tt k).Bool = tt.Bool + (if k = "bool" then 1 else 0) ∧
    (countType tt k).Int = tt.Int + (if k = "int" then 1 else 0) ∧
    (countType tt k).Float = tt.Float + (if k = "float" then 1 else 0) ∧
    (countType tt k).String = tt.String + (if k = "string" then 1 else 0) ∧
    (countType tt k).JSON = tt.JSON + (if k = "json" then 1 else 0) ∧
    (countType tt k).Array = tt.Array + (if k = "array" then 1 else 0) := by
  unfold countType
  by_cases h1 : k = "nil"
  · subst h1; simp
  by_cases h2 : k = "bool"
  · subst h2; simp
  by_cases h3 : k = "int"
  · subst h3; simp
  by_cases h4 : k = "float"
  · subst h4; simp
  by_cases h5 : k = "string"
  · subst h5; simp
  by_cases h6 : k = "array"
  · subst h6; simp
  by_cases h7 : k = "json"
  · subst h7; simp
  simp [h1, h2, h3, h4, h5, h6, h7]

theorem foldl_countType_counters (row : List String) (tt : TypeTotals) :
    ((row.map valueTypeOf).foldl countType tt).Nil = tt.Nil + kindCount "nil" row ∧
    ((row.map valueTypeOf).foldl countType tt).Bool = tt.Bool + kindCount "bool" row ∧
    ((row.map valueTypeOf).foldl countType tt).Int = tt.Int + kindCount "int" row ∧
    ((row.map valueTypeOf).foldl countType tt).Float = tt.Float + kindCount "float" row ∧
    ((row.map valueTypeOf).foldl countType tt).String = tt.String + kindCount "string" row ∧
    ((row.map valueTypeOf).foldl countType tt).JSON = tt.JSON + kindCount "json" row ∧
    ((row.map valueTypeOf).foldl countType tt).Array = tt.Array + kindCount "array" row := by
  induction row generalizing tt with
  | nil => simp [kindCount]
  | cons col rest ih =>
    obtain ⟨c1, c2, c3, c4, c5, c6, c7⟩ := countType_counters tt (valueTypeOf col)
    obtain ⟨i1, i2, i3, i4, i5, i6, i7⟩ := ih (countType tt (valueTypeOf col))
    simp only [List.map_cons, List.foldl_cons, kindCount, List.countP_cons, beq_iff_eq]
    simp only [kindCount] at i1 i2 i3 i4 i5 i6 i7
    rw [i1, i2, i3, i4, i5, i6, i7, c1, c2, c3, c4, c5, c6, c7]
    refine ⟨?_, ?_, ?_, ?_, ?_, ?_, ?_⟩ <;> omega

theorem kindCount_total (row : List String) (h : ∀ f ∈ row, Classifiable f) :
    kindCount "nil" row + kindCount "bool" row + kindCount "int" row + kindCount "float" row +
      kindCount "string" row + kindCount "json" row + kindCount "array" row = row.length := by
  induction row with
  | nil => rfl
  | cons col rest ih =>
    have hc := (h col (List.mem_cons_self _ _)).valueType
    have hr : ∀ f ∈ rest, Classifiable f := fun f hf => h f (List.mem_cons_of_mem _ hf)
    have := ih hr
    simp only [kindCount, List.countP_cons, beq_iff_eq, List.length_cons] at this ⊢
    rcases hc with hc | hc | hc <;> rw [hc] <;> simp <;> omega

/-- C10: for a row of non-blank fields `GetTypeTotals` returns one
`TypeAssert` per field, in field order, each the one `TypeAsserter` returns
for that field, and counters that sum to the number of fields, each counter
being the number of fields of its kind. -/
theorem GetTypeTotals_spec (row : List String) (hcls : ∀ f ∈ row, TrimSpace f ≠ "") :
    ∃ tt, GetTypeTotals row = .ok (tt, row.map assertOf) ∧
      (∀ f ∈ row, TypeAsserter f = .ok (assertOf f, none)) ∧
      (row.map assertOf).length = row.length ∧
      tt.Nil + tt.Bool + tt.Int + tt.Float + tt.String + tt.JSON + tt.Array = row.length ∧
      tt.Nil = kindCount "nil" row ∧ tt.Bool = kindCount "bool" row ∧
      tt.Int = kindCount "int" row ∧ tt.Float = kindCount "float" row ∧
      tt.String = kindCount "string" row ∧ tt.JSON = kindCount "json" row ∧
      tt.Array = kindCount "array" row := by
  have hc : ∀ f ∈ row, Classifiable f := fun f hf => classifiable_of_nonblank f (hcls f hf)
  obtain ⟨i1, i2, i3, i4, i5, i6, i7⟩ := foldl_countType_counters row {}
  have ht := kindCount_total row hc
  refine ⟨(row.map valueTypeOf).foldl countType {}, ?_, fun f hf => (hc f hf).eq,
    List.length_map _ _, ?_, ?_, ?_, ?_, ?_, ?_, ?_, ?_⟩
  · unfold GetTypeTotals
    rw [getTypeTotalsLoop_eq row {} [] hc]
    rfl
  · rw [i1, i2, i3, i4, i5, i6, i7]; simpa using ht
  · simpa using i1
  · simpa using i2
  · simpa using i3
  · simpa using i4
  · simpa using i5
  · simpa using i6
  · simpa using i7

set_option maxRecDepth 20000 in
/-- C10 witness: the row ["1", "Ann", "30", "1.5"]. -/
theorem GetTypeTotals_spec_witness :
    GetTypeTotals ["1", "Ann", "30", "1.5"] =
      .ok ({ Int := 2, Float := 1, String := 1 }, ["1", "Ann", "30", "1.5"].map assertOf) ∧
    ∃ tt, GetTypeTotals ["1", "Ann", "30", "1.5"] =
        .ok (tt, ["1", "Ann", "30", "1.5"].map assertOf) ∧
      (∀ f ∈ ["1", "Ann", "30", "1.5"], TypeAsserter f = .ok (assertOf f, none)) ∧
      (["1", "Ann", "30", "1.5"].map assertOf).length = ["1", "Ann", "30", "1.5"].length ∧
      tt.Nil + tt.Bool + tt.Int + tt.Float + tt.String + tt.JSON + tt.Array =
        ["1", "Ann", "30", "1.5"].length ∧
      tt.Nil = kindCount "nil" ["1", "Ann", "30", "1.5"] ∧
      tt.Bool = kindCount "bool" ["1", "Ann", "30", "1.5"] ∧
      tt.Int = kindCount "int" ["1", "Ann", "30", "1.5"] ∧
      tt.Float = kindCount "float" ["1", "Ann", "30", "1.5"] ∧
      tt.String = kindCount "string" ["1", "Ann", "30", "1.5"] ∧
      tt.JSON = kindCount "json" ["1", "Ann", "30", "1.5"] ∧
      tt.Array = kindCount "array" ["1", "Ann", "30", "1.5"] :=
  ⟨by decide, GetTypeTotals_spec ["1", "Ann", "30", "1.5"] (by decide)⟩

/-! ## C12, C13, C14, C20: the scan loop -/

theorem mapGet_mapSet_self (m : List (String × Nat)) (k : String) (v : Nat) :
    mapGet (mapSet m k v) k = some v := by
  induction m with
  | nil => simp [mapSet, mapGet]
  | cons p rest ih =>
    obtain ⟨k1, v1⟩ := p
    by_cases h : k1 = k
    · simp [mapSet, mapGet, h]
    · simp [mapSet, mapGet, h, ih]

theorem mapGet_mapSet_ne (m : List (String × Nat)) (k k2 : String) (v : Nat) (h : k2 ≠ k) :
    mapGet (mapSet m k v) k2 = mapGet m k2 := by
  induction m with
  | nil => simp [mapSet, mapGet, Ne.symm h]
  | cons p rest ih =>
    obtain ⟨k1, v1⟩ := p
    by_cases h1 : k1 = k
    · subst h1
      simp [mapSet, mapGet, Ne.symm h]
    · by_cases h2 : k1 = k2
      · subst h2
        simp [mapSet, mapGet, h1]
      · simp [mapSet, mapGet, h1, h2, ih]

theorem mapSum_mapSet (m : List (String × Nat)) (k : String) (v : Nat) :
    mapSum (mapSet m k v) + (mapGet m k).getD 0 = mapSum m + v := by
  induction m with
  | nil => simp [mapSet, mapGet, mapSum]
  | cons p rest ih =>
    obtain ⟨k1, v1⟩ := p
    by_cases h : k1 = k
    · simp [mapSet, mapGet, mapSum, h]; omega
    · simp only [mapSet, mapGet, mapSum, h, if_false, List.map_cons, List.sum_cons] at ih ⊢
      omega

theorem mapGet_countRow_self (m : List (String × Nat)) (k : String) :
    mapGet (countRow m k) k = some ((mapGet m k).getD 0 + 1) := by
  unfold countRow
  simp only
  rw [mapGet_mapSet_self]
  cases h : mapGet m k with
  | none => simp [mapGet_mapSet_self]
  | some v => simp [h]

theorem mapGet_countRow_ne (m : List (String × Nat)) (k k2 : String) (h : k2 ≠ k) :
    mapGet (countRow m k) k2 = mapGet m k2 := by
  unfold countRow
  simp only
  rw [mapGet_mapSet_ne _ _ _ _ h]
  split
  · exact mapGet_mapSet_ne _ _ _ _ h
  · rfl

theorem mapSum_countRow (m : List (String × Nat)) (k : String) :
    mapSum (countRow m k) = mapSum m + 1 := by
  unfold countRow
  simp only
  cases h : mapGet m k with
  | none =>
    have h1 := mapSum_mapSet m k 0
    have h2 := mapSum_mapSet (mapSet m k 0) k ((mapGet (mapSet m k 0) k).getD 0 + 1)
    simp only [Option.isNone_none, if_true]
    rw [h] at h1
    simp only [Option.getD_none] at h1
    omega
  | some v =>
    have h2 := mapSum_mapSet m k ((mapGet m k).getD 0 + 1)
    simp only [Option.isNone_some, Bool.false_eq_true, if_false]
    omega

theorem formatInt_length_eq_zero (row : List String) :
    formatInt (row.length : Int) = "0" ↔ row = [] := by
  constructor
  · intro h
    have h1 : natDigits row.length = ['0'] := by
      have : (formatInt (row.length : Int)).data = "0".data := by rw [h]
      exact this
    have h2 := digitsValue_natDigits row.length
    rw [h1] at h2
    have h3 : row.length = 0 := by rw [← h2]; rfl
    exact List.length_eq_zero.mp h3
  · intro h; subst h; rfl

theorem scanLoop_nil (st : ScanState) : scanLoop [] st = .ok st := rfl

theorem scanLoop_blank (err : Option ReaderError) (rest : List ReadResult) (st : ScanState)
    (herr : err ≠ some .eof) :
    scanLoop (([], err) :: rest) st = scanLoop rest st := by
  rw [scanLoop]
  have h0 : formatInt (([] : List String).length : Int) = "0" := rfl
  simp only [h0, ne_eq, not_true_eq_false, false_and, if_false, herr, if_true]

theorem scanLoop_fields (row : List String) (err : Option ReaderError)
    (rest : List ReadResult) (st : ScanState) (hrow : row ≠ []) (herr : err ≠ some .eof) :
    scanLoop ((row, err) :: rest) st =
      match err with
      | some e =>
        if isFieldCountError e then
          scanLoop rest { st with columnCounts := countRow st.columnCounts (formatInt row.length),
                                  TotalLineCount := st.TotalLineCount + 1 }
        else .error e
      | none =>
        scanLoop rest
          { TotalLineCount := st.TotalLineCount + 1,
            columnCounts := countRow st.columnCounts (formatInt row.length),
            first5Rows := if st.TotalLineCount < 5 then st.first5Rows ++ [row]
                          else st.first5Rows,
            normalRow := if st.TotalLineCount < 3 then row else st.normalRow } := by
  have h0 : formatInt (row.length : Int) ≠ "0" := fun h =>
    hrow ((formatInt_length_eq_zero row).mp h)
  cases err with
  | none =>
    rw [scanLoop]
    simp only [h0, ne_eq, not_false_eq_true, true_and, if_false, reduceCtorEq]
    rfl
  | some e =>
    rw [scanLoop]
    simp only [h0, ne_eq, not_false_eq_true, true_and, herr, if_false]
    rfl


theorem scanLoop_eof (row : List String) (rest : List ReadResult) (st : ScanState) :
    scanLoop ((row, some .eof) :: rest) st =
      .ok { st with columnCounts :=
              if formatInt row.length ≠ "0" ∧
                  (mapGet st.columnCounts (formatInt row.length)).isNone then
                mapSet st.columnCounts (formatInt row.length) 0
              else st.columnCounts } := by
  rw [scanLoop]
  simp only [if_true]

theorem scanLoop_sum (results : List ReadResult) (st st1 : ScanState)
    (h : scanLoop results st = .ok st1)
    (hinv : mapSum st.columnCounts = st.TotalLineCount) :
    mapSum st1.columnCounts = st1.TotalLineCount := by
  induction results generalizing st with
  | nil =>
    rw [scanLoop_nil] at h
    cases h; exact hinv
  | cons r rest ih =>
    obtain ⟨row, err⟩ := r
    by_cases heof : err = some .eof
    · subst heof
      rw [scanLoop_eof] at h
      cases h
      simp only
      split
      · rename_i hc
        have h1 := mapSum_mapSet st.columnCounts (formatInt row.length) 0
        have h2 : mapGet st.columnCounts (formatInt row.length) = none :=
          Option.isNone_iff_eq_none.mp hc.2
        rw [h2] at h1
        simp only [Option.getD_none, Nat.add_zero] at h1
        rw [h1]; exact hinv
      · exact hinv
    · by_cases hrow : row = []
      · subst hrow
        rw [scanLoop_blank err rest st heof] at h
        exact ih st h hinv
      · rw [scanLoop_fields row err rest st hrow heof] at h
        cases err with
        | none =>
          simp only at h
          refine ih _ h ?_
          simp only [mapSum_countRow, hinv]
        | some e =>
          simp only at h
          by_cases he : isFieldCountError e = true
          · rw [if_pos he] at h
            refine ih _ h ?_
            simp only [mapSum_countRow, hinv]
          · rw [if_neg he] at h
            cases h

theorem sampledRows_nil (n : Nat) : sampledRows n [] = [] := by
  simp [sampledRows]

theorem sampledRows_zero (results : List ReadResult) : sampledRows 0 results = [] := by
  simp [sampledRows]

theorem sampledRows_blank (n : Nat) (err : Option ReaderError) (rest : List ReadResult) :
    sampledRows n (([], err) :: rest) = sampledRows n rest := by
  simp [sampledRows, nonBlank]

theorem sampledRows_wellFormed (n : Nat) (row : List String) (rest : List ReadResult)
    (hrow : row ≠ []) :
    sampledRows (n + 1) ((row, none) :: rest) = row :: sampledRows n rest := by
  have h1 : nonBlank (row, none) = true := by simp [nonBlank, hrow]
  have h2 : wellFormed (row, none) = true := by simp [wellFormed, hrow]
  simp [sampledRows, h1, h2]

theorem sampledRows_malformed (n : Nat) (row : List String) (e : ReaderError)
    (rest : List ReadResult) (hrow : row ≠ []) :
    sampledRows (n + 1) ((row, some e) :: rest) = sampledRows n rest := by
  have h1 : nonBlank (row, some e) = true := by simp [nonBlank, hrow]
  have h2 : wellFormed (row, some e) = false := by simp [wellFormed]
  simp [sampledRows, h1, h2]

theorem filter_nonBlank_cons_fields (row : List String) (err : Option ReaderError)
    (rest : List ReadResult) (hrow : row ≠ []) :
    ((row, err) :: rest).filter nonBlank = (row, err) :: rest.filter nonBlank := by
  have h1 : nonBlank (row, err) = true := by simp [nonBlank, hrow]
  simp [h1]

theorem filter_nonBlank_cons_blank (err : Option ReaderError) (rest : List ReadResult) :
    (([], err) :: rest).filter nonBlank = rest.filter nonBlank := by
  simp [nonBlank]

theorem scanLoop_sample (results : List ReadResult) (st : ScanState)
    (h : ∀ r ∈ results, continues r = true) :
    ∃ st1, scanLoop results st = .ok st1 ∧
      st1.TotalLineCount = st.TotalLineCount + (results.filter nonBlank).length ∧
      st1.first5Rows = st.first5Rows ++ sampledRows (5 - st.TotalLineCount) results ∧
      st1.normalRow =
        ((sampledRows (3 - st.TotalLineCount) results).getLast?).getD st.normalRow := by
  induction results generalizing st with
  | nil =>
    refine ⟨st, rfl, ?_, ?_, ?_⟩
    · simp
    · rw [sampledRows_nil, List.append_nil]
    · rw [sampledRows_nil]; rfl
  | cons r rest ih =>
    obtain ⟨row, err⟩ := r
    have hr := h (row, err) (List.mem_cons_self _ _)
    have hrest : ∀ r ∈ rest, continues r = true := fun r hr => h r (List.mem_cons_of_mem _ hr)
    have heof : err ≠ some .eof := by
      rintro rfl
      simp [continues] at hr
    by_cases hrow : row = []
    · subst hrow
      rw [scanLoop_blank err rest st heof, filter_nonBlank_cons_blank]
      simp only [sampledRows_blank]
      exact ih st hrest
    · rw [scanLoop_fields row err rest st hrow heof, filter_nonBlank_cons_fields _ _ _ hrow]
      cases err with
      | none =>
        simp only
        obtain ⟨st1, h1, h2, h3, h4⟩ := ih
          { TotalLineCount := st.TotalLineCount + 1,
            columnCounts := countRow st.columnCounts (formatInt row.length),
            first5Rows := if st.TotalLineCount < 5 then st.first5Rows ++ [row]
                          else st.first5Rows,
            normalRow := if st.TotalLineCount < 3 then row else st.normalRow } hrest
        refine ⟨st1, h1, ?_, ?_, ?_⟩
        · rw [h2]; simp only [List.length_cons]; omega
        · rw [h3]
          simp only
          by_cases h5 : st.TotalLineCount < 5
          · rw [if_pos h5]
            have e : 5 - st.TotalLineCount = (5 - (st.TotalLineCount + 1)) + 1 := by omega
            rw [e, sampledRows_wellFormed _ _ _ hrow]
            simp
          · rw [if_neg h5]
            have e1 : 5 - st.TotalLineCount = 0 := by omega
            have e2 : 5 - (st.TotalLineCount + 1) = 0 := by omega
            rw [e1, e2, sampledRows_zero, sampledRows_zero]
        · rw [h4]
          simp only
          by_cases h3 : st.TotalLineCount < 3
          · rw [if_pos h3]
            have e : 3 - st.TotalLineCount = (3 - (st.TotalLineCount + 1)) + 1 := by omega
            rw [e, sampledRows_wellFormed _ _ _ hrow]
            cases sampledRows (3 - (st.TotalLineCount + 1)) rest with
            | nil => rfl
            | cons a l =>
              simp only [List.getLast?_cons_cons]
              rw [List.getLast?_eq_getLast _ (List.cons_ne_nil _ _)]
              rfl
          · rw [if_neg h3]
            have e1 : 3 - st.TotalLineCount = 0 := by omega
            have e2 : 3 - (st.TotalLineCount + 1) = 0 := by omega
            rw [e1, e2, sampledRows_zero, sampledRows_zero]
      | some e =>
        have he : isFieldCountError e = true := by
          cases e with
          | eof => exact absurd rfl heof
          | other text =>
            have hemp : row.isEmpty = false := by
              cases row with
              | nil => exact absurd rfl hrow
              | cons a l => rfl
            simpa [continues, hemp] using hr
        simp only [he, if_true]
        obtain ⟨st1, h1, h2, h3, h4⟩ := ih
          { st with columnCounts := countRow st.columnCounts (formatInt row.length),
                    TotalLineCount := st.TotalLineCount + 1 } hrest
        refine ⟨st1, h1, ?_, ?_, ?_⟩
        · rw [h2]; simp only [List.length_cons]; omega
        · rw [h3]
          simp only
          by_cases h5 : st.TotalLineCount < 5
          · have e : 5 - st.TotalLineCount = (5 - (st.TotalLineCount + 1)) + 1 := by omega
            rw [e, sampledRows_malformed _ _ _ _ hrow]
          · have e1 : 5 - st.TotalLineCount = 0 := by omega
            have e2 : 5 - (st.TotalLineCount + 1) = 0 := by omega
            rw [e1, e2, sampledRows_zero, sampledRows_zero]
        · rw [h4]
          simp only
          by_cases h3 : st.TotalLineCount < 3
          · have e : 3 - st.TotalLineCount = (3 - (st.TotalLineCount + 1)) + 1 := by omega
            rw [e, sampledRows_malformed _ _ _ _ hrow]
          · have e1 : 3 - st.TotalLineCount = 0 := by omega
            have e2 : 3 - (st.TotalLineCount + 1) = 0 := by omega
            rw [e1, e2, sampledRows_zero, sampledRows_zero]


theorem sampledRows_of_all_wellFormed (n : Nat) (results : List ReadResult)
    (h : ∀ r ∈ results, nonBlank r = true → wellFormed r = true) :
    sampledRows n results = (wellFormedRows results).take n := by
  have hf : results.filter nonBlank = results.filter wellFormed := by
    apply List.filter_congr
    intro r hr
    cases hnb : nonBlank r with
    | true => exact (h r hr hnb).symm
    | false =>
      have : wellFormed r = false := by
        unfold wellFormed
        unfold nonBlank at hnb
        rw [hnb]; rfl
      exact this.symm
  unfold sampledRows wellFormedRows
  rw [hf]
  have hs : ((results.filter wellFormed).take n).filter wellFormed =
      (results.filter wellFormed).take n := by
    apply List.filter_eq_self.mpr
    intro r hr
    exact (List.mem_filter.mp (List.mem_of_mem_take hr)).2
  rw [hs, List.map_take]

/-- C12 (as amended): in the scan loop a row with fields reported with a
"wrong number of fields" error is added to TotalLineCount and also to the
field-count mapping, under the decimal text of its field count, and the scan
goes on; a zero-field row is added to neither. -/
theorem scanLoop_malformed_and_blank (row : List String) (e : ReaderError)
    (err : Option ReaderError) (rest : List ReadResult) (st : ScanState)
    (hrow : row ≠ []) (he : isFieldCountError e = true) (hne : e ≠ .eof)
    (herr : err ≠ some .eof) :
    scanLoop ((row, some e) :: rest) st =
      scanLoop rest { st with columnCounts := countRow st.columnCounts (formatInt row.length),
                              TotalLineCount := st.TotalLineCount + 1 } ∧
    mapGet (countRow st.columnCounts (formatInt row.length)) (formatInt row.length) =
      some ((mapGet st.columnCounts (formatInt row.length)).getD 0 + 1) ∧
    (∀ k, k ≠ formatInt row.length →
      mapGet (countRow st.columnCounts (formatInt row.length)) k = mapGet st.columnCounts k) ∧
    scanLoop (([], err) :: rest) st = scanLoop rest st := by
  refine ⟨?_, mapGet_countRow_self _ _, fun k hk => mapGet_countRow_ne _ _ _ hk,
    scanLoop_blank err rest st herr⟩
  rw [scanLoop_fields row (some e) rest st hrow (by intro h; cases h; exact hne rfl)]
  simp only [he, if_true]

set_option maxRecDepth 20000 in
/-- C12 witness: the stream of the claim, three rows of five fields, a row
of three fields reported with "wrong number of fields", a blank row: the
total is 4 and the mapping is 5 -> 3, 3 -> 1; and the amended statement at
a malformed row of three fields. -/
theorem scanLoop_malformed_and_blank_witness :
    scan [(["a", "b", "c", "d", "e"], none), (["a", "b", "c", "d", "e"], none),
          (["a", "b", "c", "d", "e"], none),
          (["x", "y", "z"], some (.other "record on line 4: wrong number of fields")),
          ([], none)] =
      .ok { TotalLineCount := 4, columnCounts := [("5", 3), ("3", 1)],
            first5Rows := [["a", "b", "c", "d", "e"], ["a", "b", "c", "d", "e"],
                           ["a", "b", "c", "d", "e"]],
            normalRow := ["a", "b", "c", "d", "e"] } ∧
    (scanLoop ((["x", "y", "z"],
        some (ReaderError.other "record on line 4: wrong number of fields")) :: []) {} =
      scanLoop [] { ({} : ScanState) with
        columnCounts := countRow ({} : ScanState).columnCounts
          (formatInt (["x", "y", "z"].length : Int)),
        TotalLineCount := ({} : ScanState).TotalLineCount + 1 } ∧
    mapGet (countRow ({} : ScanState).columnCounts (formatInt (["x", "y", "z"].length : Int)))
        (formatInt (["x", "y", "z"].length : Int)) =
      some ((mapGet ({} : ScanState).columnCounts
        (formatInt (["x", "y", "z"].length : Int))).getD 0 + 1) ∧
    (∀ k, k ≠ formatInt (["x", "y", "z"].length : Int) →
      mapGet (countRow ({} : ScanState).columnCounts
        (formatInt (["x", "y", "z"].length : Int))) k =
        mapGet ({} : ScanState).columnCounts k) ∧
    scanLoop (([], none) :: []) ({} : ScanState) = scanLoop [] {}) :=
  ⟨by decide,
    scanLoop_malformed_and_blank ["x", "y", "z"]
      (.other "record on line 4: wrong number of fields") none [] {}
      (by decide) (by decide) (by decide) (by decide)⟩

set_option maxRecDepth 20000 in
/-- C12 counterexample: on the stream of the claim the mapping holds the
entry 3 -> 1 of the malformed row next to 5 -> 3. -/
theorem scan_malformed_row_in_mapping :
    (scan [(["a", "b", "c", "d", "e"], none), (["a", "b", "c", "d", "e"], none),
           (["a", "b", "c", "d", "e"], none),
           (["x", "y", "z"], some (.other "record on line 4: wrong number of fields")),
           ([], none)]).map (fun st => (st.TotalLineCount, st.columnCounts)) =
      .ok (4, [("5", 3), ("3", 1)]) := by
  decide

/-- C13 (as amended): for every stream that ends normally (no result is
`io.EOF` before the end and none is fatal), the sample handed to
`IsFirstRowLabels` is, in order, the well-formed rows among the first five
rows with fields (well-formed or malformed), and the row handed to
`GetTypeTotals` is the last well-formed row among the first three rows with
fields; blank rows never count. When no row is malformed these are the first
five well-formed rows and, given three of them, the well-formed row at
index 2. -/
theorem scan_sample (results : List ReadResult)
    (h : ∀ r ∈ results, continues r = true) :
    ∃ st, scan results = .ok st ∧
      st.first5Rows = sampledRows 5 results ∧
      st.normalRow = ((sampledRows 3 results).getLast?).getD [] ∧
      ((∀ r ∈ results, nonBlank r = true → wellFormed r = true) →
        st.first5Rows = (wellFormedRows results).take 5 ∧
        (3 ≤ (wellFormedRows results).length →
          (wellFormedRows results)[2]? = some st.normalRow)) := by
  obtain ⟨st, h1, _, h3, h4⟩ := scanLoop_sample results {} h
  refine ⟨st, h1, ?_, ?_, ?_⟩
  · rw [h3]; rfl
  · rw [h4]; rfl
  · intro hw
    constructor
    · rw [h3, ← sampledRows_of_all_wellFormed 5 results hw]; rfl
    · intro hlen
      rw [h4]
      have e : sampledRows (3 - ({} : ScanState).TotalLineCount) results =
          (wellFormedRows results).take 3 := sampledRows_of_all_wellFormed 3 results hw
      rw [e]
      generalize wellFormedRows results = l at hlen
      match l, hlen with
      | a :: b :: c :: t, _ => simp

set_option maxRecDepth 20000 in
/-- C13 witness: a blank row between three well-formed rows. -/
theorem scan_sample_witness :
    ∃ st, scan [(["a"], none), ([], none), (["b"], none), (["c"], none)] = .ok st ∧
      st.first5Rows =
        sampledRows 5 [(["a"], none), ([], none), (["b"], none), (["c"], none)] ∧
      st.normalRow =
        ((sampledRows 3
          [(["a"], none), ([], none), (["b"], none), (["c"], none)]).getLast?).getD [] ∧
      ((∀ r ∈ [((["a"] : List String), (none : Option ReaderError)), ([], none),
            (["b"], none), (["c"], none)], nonBlank r = true → wellFormed r = true) →
        st.first5Rows =
          (wellFormedRows [(["a"], none), ([], none), (["b"], none), (["c"], none)]).take 5 ∧
        (3 ≤ (wellFormedRows
            [(["a"], none), ([], none), (["b"], none), (["c"], none)]).length →
          (wellFormedRows [(["a"], none), ([], none), (["b"], none), (["c"], none)])[2]? =
            some st.normalRow)) :=
  scan_sample [(["a"], none), ([], none), (["b"], none), (["c"], none)] (by decide)

set_option maxRecDepth 20000 in
/-- C13 counterexample: a well-formed row of one field, a row of two fields
reported with "wrong number of fields", then four well-formed rows: the
sample keeps only four of the five well-formed rows, and the representative
row is the second well-formed row, not the one at index 2. -/
theorem scan_malformed_shifts_sample :
    (scan [(["a"], none),
           (["m", "n"], some (.other "record on line 2: wrong number of fields")),
           (["b"], none), (["c"], none), (["d"], none), (["e"], none)]).map
        (fun st => (st.first5Rows, st.normalRow)) =
      .ok ([["a"], ["b"], ["c"], ["d"]], ["b"]) ∧
    (wellFormedRows
      [(["a"], none),
       (["m", "n"], some (.other "record on line 2: wrong number of fields")),
       (["b"], none), (["c"], none), (["d"], none), (["e"], none)]).take 5 =
      [["a"], ["b"], ["c"], ["d"], ["e"]] ∧
    (wellFormedRows
      [(["a"], none),
       (["m", "n"], some (.other "record on line 2: wrong number of fields")),
       (["b"], none), (["c"], none), (["d"], none), (["e"], none)])[2]? = some ["c"] := by
  decide

set_option maxRecDepth 20000 in
/-- C14 (evaluation at the failing input): a reader error that is neither
`io.EOF` nor "wrong number of fields" and comes with a zero-field row is
skipped by the `continue` of the blank-row test, and the scan ends normally;
with a row that has fields the same error aborts the scan. -/
theorem scan_skips_error_with_blank_row :
    scan [([], some (.other "read failure"))] = .ok {} ∧
    scan [([], some (.other "read failure")), (["a"], none)] =
      .ok { TotalLineCount := 1, columnCounts := [("1", 1)], first5Rows := [["a"]],
            normalRow := ["a"] } ∧
    scan [(["a"], some (.other "read failure"))] = .error (.other "read failure") := by
  decide

theorem continues_of_nonfatal (r : ReadResult)
    (h : r.1 = [] ∨ r.2 = none ∨ r.2 = some .eof ∨
      ∃ e, r.2 = some e ∧ isFieldCountError e = true)
    (hne : r.2 ≠ some .eof) : continues r = true := by
  obtain ⟨row, err⟩ := r
  unfold continues
  cases err with
  | none => rfl
  | some e =>
    cases e with
    | eof => exact absurd rfl hne
    | other t =>
      rcases h with h1 | h1 | h1 | ⟨e, h1, h2⟩
      · simp only at h1; subst h1; rfl
      · cases h1
      · cases h1
      · simp only at h1
        cases h1
        simp only [h2, Bool.or_true]

/-- C20: whenever the scan loop ends without a fatal error the values of the
field-count mapping sum to TotalLineCount, and when no result is `io.EOF`
before the end TotalLineCount is the number of rows with fields. The loop
takes a row with fields and no error, or a "wrong number of fields" error, to
the state with one more in the entry of the decimal text of its field count,
every other entry unchanged, and one more in the total; it leaves the state
unchanged at a zero-field row. A stream without a fatal result always ends
so. -/
theorem scan_counts_sum (results : List ReadResult)
    (h : ∀ r ∈ results,
      r.1 = [] ∨ r.2 = none ∨ r.2 = some .eof ∨ ∃ e, r.2 = some e ∧ isFieldCountError e = true) :
    ∃ st, scan results = .ok st ∧ mapSum st.columnCounts = st.TotalLineCount ∧
      ((∀ r ∈ results, r.2 ≠ some .eof) →
        st.TotalLineCount = (results.filter nonBlank).length) ∧
      (∀ (row : List String) (err : Option ReaderError) (s : ScanState), row ≠ [] →
          (err = none ∨ ∃ e, err = some e ∧ e ≠ .eof ∧ isFieldCountError e = true) →
          ∃ s1, scanLoop [(row, err)] s = .ok s1 ∧
            (∀ rest, scanLoop ((row, err) :: rest) s = scanLoop rest s1) ∧
            s1.TotalLineCount = s.TotalLineCount + 1 ∧
            s1.columnCounts = countRow s.columnCounts (formatInt row.length) ∧
            mapGet s1.columnCounts (formatInt row.length) =
              some ((mapGet s.columnCounts (formatInt row.length)).getD 0 + 1) ∧
            (∀ k, k ≠ formatInt row.length →
              mapGet s1.columnCounts k = mapGet s.columnCounts k) ∧
            mapSum s1.columnCounts = mapSum s.columnCounts + 1) ∧
      (∀ (err : Option ReaderError) (s : ScanState), err ≠ some .eof →
          scanLoop [([], err)] s = .ok s ∧
          ∀ rest, scanLoop (([], err) :: rest) s = scanLoop rest s) := by
  have hok : ∀ (rs : List ReadResult) (s : ScanState),
      (∀ r ∈ rs, r.1 = [] ∨ r.2 = none ∨ r.2 = some .eof ∨
        ∃ e, r.2 = some e ∧ isFieldCountError e = true) →
      ∃ s1, scanLoop rs s = .ok s1 := by
    intro rs
    induction rs with
    | nil => intro s _; exact ⟨s, rfl⟩
    | cons r rest ih =>
      intro s hrs
      obtain ⟨row, err⟩ := r
      have hr := hrs (row, err) (List.mem_cons_self _ _)
      have hrest := fun r hr => hrs r (List.mem_cons_of_mem _ hr)
      by_cases heof : err = some .eof
      · subst heof; rw [scanLoop_eof]; exact ⟨_, rfl⟩
      · by_cases hrow : row = []
        · subst hrow; rw [scanLoop_blank err rest s heof]; exact ih s hrest
        · rw [scanLoop_fields row err rest s hrow heof]
          rcases hr with h1 | h1 | h1 | ⟨e, h1, h2⟩
          · exact absurd h1 hrow
          · simp only at h1; subst h1; exact ih _ hrest
          · exact absurd h1 heof
          · simp only at h1; subst h1
            simp only [h2, if_true]
            exact ih _ hrest
  obtain ⟨st, hst⟩ := hok results {} h
  refine ⟨st, hst, scanLoop_sum results {} st hst rfl, ?_, ?_, ?_⟩
  · intro hne
    obtain ⟨st1, h1, h2, _, _⟩ := scanLoop_sample results {}
      (fun r hr => continues_of_nonfatal r (h r hr) (hne r hr))
    have e : st = st1 := by
      rw [hst] at h1
      cases h1; rfl
    subst e
    rw [h2]
    exact Nat.zero_add _
  · intro row err s hrow herr
    rcases herr with h1 | ⟨e, h1, h2, h3⟩
    · subst h1
      refine ⟨{ TotalLineCount := s.TotalLineCount + 1,
                columnCounts := countRow s.columnCounts (formatInt row.length),
                first5Rows := if s.TotalLineCount < 5 then s.first5Rows ++ [row]
                              else s.first5Rows,
                normalRow := if s.TotalLineCount < 3 then row else s.normalRow },
        ?_, fun rest => ?_, rfl, rfl, mapGet_countRow_self _ _,
        fun k hk => mapGet_countRow_ne _ _ _ hk, mapSum_countRow _ _⟩
      · rw [scanLoop_fields row none [] s hrow (by intro h; cases h)]
        rfl
      · rw [scanLoop_fields row none rest s hrow (by intro h; cases h)]
    · subst h1
      refine ⟨{ s with columnCounts := countRow s.columnCounts (formatInt row.length),
                       TotalLineCount := s.TotalLineCount + 1 }, ?_, fun rest => ?_, rfl, rfl,
        mapGet_countRow_self _ _, fun k hk => mapGet_countRow_ne _ _ _ hk, mapSum_countRow _ _⟩
      · rw [scanLoop_fields row (some e) [] s hrow (by intro h; cases h; exact h2 rfl)]
        simp only [h3, if_true]
        rfl
      · rw [scanLoop_fields row (some e) rest s hrow (by intro h; cases h; exact h2 rfl)]
        simp only [h3, if_true]
  · intro err s herr
    exact ⟨by rw [scanLoop_blank err [] s herr]; rfl, fun rest => scanLoop_blank err rest s herr⟩

set_option maxRecDepth 20000 in
/-- C20 witness: a well-formed row, a malformed row, a blank row and a
well-formed row: the total is 3 and the mapping is 1 -> 2, 2 -> 1. -/
theorem scan_counts_sum_witness :
    scan [(["a"], none),
        (["m", "n"], some (.other "record on line 2: wrong number of fields")),
        ([], none), (["b"], none)] =
      .ok { TotalLineCount := 3, columnCounts := [("1", 2), ("2", 1)],
            first5Rows := [["a"], ["b"]], normalRow := ["b"] } ∧
    ∃ st, scan [(["a"], none),
        (["m", "n"], some (.other "record on line 2: wrong number of fields")),
        ([], none), (["b"], none)] = .ok st ∧
      mapSum st.columnCounts = st.TotalLineCount ∧
      ((∀ r ∈ ([(["a"], none),
        (["m", "n"], some (.other "record on line 2: wrong number of fields")),
        ([], none), (["b"], none)] : List ReadResult), r.2 ≠ some .eof) →
        st.TotalLineCount = (List.filter nonBlank [(["a"], none),
        (["m", "n"], some (.other "record on line 2: wrong number of fields")),
        ([], none), (["b"], none)]).length) ∧
      (∀ (row : List String) (err : Option ReaderError) (s : ScanState), row ≠ [] →
          (err = none ∨ ∃ e, err = some e ∧ e ≠ .eof ∧ isFieldCountError e = true) →
          ∃ s1, scanLoop [(row, err)] s = .ok s1 ∧
            (∀ rest, scanLoop ((row, err) :: rest) s = scanLoop rest s1) ∧
            s1.TotalLineCount = s.TotalLineCount + 1 ∧
            s1.columnCounts = countRow s.columnCounts (formatInt row.length) ∧
            mapGet s1.columnCounts (formatInt row.length) =
              some ((mapGet s.columnCounts (formatInt row.length)).getD 0 + 1) ∧
            (∀ k, k ≠ formatInt row.length →
              mapGet s1.columnCounts k = mapGet s.columnCounts k) ∧
            mapSum s1.columnCounts = mapSum s.columnCounts + 1) ∧
      (∀ (err : Option ReaderError) (s : ScanState), err ≠ some .eof →
          scanLoop [([], err)] s = .ok s ∧
          ∀ rest, scanLoop (([], err) :: rest) s = scanLoop rest s) :=
  ⟨by decide, scan_counts_sum [(["a"], none),
        (["m", "n"], some (.other "record on line 2: wrong number of fields")),
        ([], none), (["b"], none)] (by decide)⟩

/-! ## C15, C16, C17: what TypeAsserter returns -/

theorem coerce_of_parseInt (s : String) (v : Int) (h : ParseInt s = .ok v) :
    coerce s = .int v := by
  unfold coerce; rw [h]

theorem coerce_of_parseFloat (s : String) (e : GoError) (f : Float64)
    (h1 : ParseInt s = .error e) (h2 : ParseFloat s = .ok f) : coerce s = .float f := by
  unfold coerce; rw [h1]; simp only; rw [h2]

theorem getTypeTotalsLoop_classifiable (row : List String) (tt : TypeTotals)
    (ctd : List TypeAssert) (r : TypeTotals × List TypeAssert)
    (h : getTypeTotalsLoop row tt ctd = .ok r) : ∀ f ∈ row, Classifiable f := by
  induction row generalizing tt ctd with
  | nil => intro f hf; cases hf
  | cons col rest ih =>
    rw [getTypeTotalsLoop] at h
    cases hta : TypeAsserter col with
    | error p => rw [hta] at h; cases h
    | ok p =>
      obtain ⟨ta, err⟩ := p
      rw [hta] at h
      simp only at h
      have herr := typeAsserter_error_none col ta err hta
      subst herr
      intro f hf
      rcases List.mem_cons.mp hf with hf | hf
      · subst hf; exact ⟨ta, hta⟩
      · exact ih _ _ h f hf

theorem kindCount_eq_zero (k : String) (row : List String)
    (h : ∀ f ∈ row, Classifiable f) (h1 : k ≠ "int") (h2 : k ≠ "float") (h3 : k ≠ "string") :
    kindCount k row = 0 := by
  unfold kindCount
  rw [List.countP_eq_zero]
  intro f hf
  have hv := (h f hf).valueType
  simp only [beq_iff_eq]
  rcases hv with hv | hv | hv <;> rw [hv] <;> intro hc <;> subst hc <;> contradiction

/-- C15: the re-parse inside `TypeAsserter` never fails. A text that passes
`strconv.ParseInt` makes `Atoi` of its `%d` rendering succeed and gives a
nil error with ConvertedValue the parsed integer; a text that passes
`strconv.ParseFloat` makes `ParseFloat` of its `%f` rendering succeed and
gives a nil error with a float ConvertedValue; `TypeAsserter` never returns
a non-nil error, so `GetTypeTotals` has one entry per field and counters
that sum to the number of fields whenever it returns. -/
theorem typeAsserter_reparse_succeeds (s : String) :
    (∀ v, ParseInt s = .ok v →
      Atoi (formatInt v) = .ok v ∧
      TypeAsserter s =
        .ok ({ Value := .str s, ConvertedValue := .int v, ValueType := "int",
               IsTruthy := (IsTruthyInt v).1, TruthyValue := (IsTruthyInt v).2 }, none)) ∧
    (∀ e f, ParseInt s = .error e → ParseFloat s = .ok f →
      ∃ v, ParseFloat (formatF f) = .ok v ∧
        TypeAsserter s =
          .ok ({ Value := .str s, ConvertedValue := .float v, ValueType := "float",
                 IsTruthy := (IsTruthyFloat v).1, TruthyValue := (IsTruthyFloat v).2 },
               none)) ∧
    (∀ ta err, TypeAsserter s = .ok (ta, err) → err = none) ∧
    (∀ (row : List String) (tt : TypeTotals) (ctd : List TypeAssert),
      GetTypeTotals row = .ok (tt, ctd) →
        ctd = row.map assertOf ∧ ctd.length = row.length ∧
        tt.Nil + tt.Bool + tt.Int + tt.Float + tt.String + tt.JSON + tt.Array = row.length) := by
  refine ⟨?_, ?_, typeAsserter_error_none s, ?_⟩
  · intro v hv
    obtain ⟨hlo, hhi⟩ := ParseInt_range s v hv
    exact ⟨ParseInt_formatInt v hlo hhi, typeAsserter_of_parseInt s v hv (coerce_of_parseInt s v hv)⟩
  · intro e f h1 h2
    exact typeAsserter_of_parseFloat s f h2 (coerce_of_parseFloat s e f h1 h2)
  · intro row tt ctd h
    have hc : ∀ f ∈ row, Classifiable f := getTypeTotalsLoop_classifiable row {} [] _ h
    have hl := getTypeTotalsLoop_eq row {} [] hc
    unfold GetTypeTotals at h
    rw [hl] at h
    simp only [Except.ok.injEq, Prod.mk.injEq, List.nil_append] at h
    obtain ⟨h1, h2⟩ := h
    obtain ⟨i1, i2, i3, i4, i5, i6, i7⟩ := foldl_countType_counters row {}
    have ht := kindCount_total row hc
    refine ⟨h2.symm, by rw [← h2, List.length_map], ?_⟩
    rw [← h1, i1, i2, i3, i4, i5, i6, i7]
    simpa using ht

theorem IsTruthyInt_value (n : Int) : (IsTruthyInt n).2 = true → (IsTruthyInt n).1 = true := by
  unfold IsTruthyInt
  split_ifs <;> simp

theorem IsTruthyFloat_value (f : Float64) :
    (IsTruthyFloat f).2 = true → (IsTruthyFloat f).1 = true := by
  unfold IsTruthyFloat
  split_ifs <;> simp

theorem IsTruthyString_value (s : String) :
    (IsTruthyString s).2 = true → (IsTruthyString s).1 = true := by
  rw [IsTruthyString_eq_table]
  unfold truthyTable
  split_ifs <;> simp

theorem typeAsserter_string (s : String) (ta : TypeAssert) (err : Option GoError)
    (hc : coerce s = .str s) (h : TypeAsserter s = .ok (ta, err)) :
    ∃ a j, IsArrayString s = .ok a ∧ IsJsonString s = .ok j ∧
      ta = { Value := .str s, ConvertedValue := .str s, ValueType := "string",
             IsArray := a, IsJson := j, IsTruthy := (IsTruthyString s).1,
             TruthyValue := (IsTruthyString s).2 } := by
  unfold TypeAsserter at h
  rw [hc] at h
  simp only at h
  cases ha : IsArrayString s with
  | error p => rw [ha] at h; cases h
  | ok a =>
    cases hj : IsJsonString s with
    | error p => rw [ha, hj] at h; cases h
    | ok j =>
      rw [ha, hj] at h
      simp only [Except.ok.injEq, Prod.mk.injEq] at h
      exact ⟨a, j, rfl, rfl, h.1.symm⟩

/-- C16: each of `IsTruthyInt`, `IsTruthyFloat`, `IsTruthyString` returns a
pair in which a true value implies recognized, and every `TypeAssert` that
`TypeAsserter` returns has TruthyValue true only with IsTruthy true. -/
theorem truthy_value_implies_recognized :
    (∀ n : Int, (IsTruthyInt n).2 = true → (IsTruthyInt n).1 = true) ∧
    (∀ f : Float64, (IsTruthyFloat f).2 = true → (IsTruthyFloat f).1 = true) ∧
    (∀ s : String, (IsTruthyString s).2 = true → (IsTruthyString s).1 = true) ∧
    (∀ (s : String) (ta : TypeAssert) (err : Option GoError),
      TypeAsserter s = .ok (ta, err) → ta.TruthyValue = true → ta.IsTruthy = true) := by
  refine ⟨IsTruthyInt_value, IsTruthyFloat_value, IsTruthyString_value, ?_⟩
  intro s ta err h
  rcases coerce_cases s with ⟨v, hp, hc⟩ | ⟨f, hp, hc⟩ | hc
  · rw [typeAsserter_of_parseInt s v hp hc] at h
    cases h
    exact IsTruthyInt_value v
  · obtain ⟨v, _, hv⟩ := typeAsserter_of_parseFloat s f hp hc
    rw [hv] at h
    cases h
    exact IsTruthyFloat_value v
  · obtain ⟨a, j, _, _, hta⟩ := typeAsserter_string s ta err hc h
    subst hta
    exact IsTruthyString_value s

/-- C17: whenever `TypeAsserter` returns on a text, the ValueType is "int",
"float" or "string", never "nil", "bool", "json" or "array"; IsArray and
IsJson are false unless the ValueType is "string"; and the Nil, Bool, JSON
and Array counters of `GetTypeTotals` are 0 for every row on which it
returns. -/
theorem typeAsserter_kinds_of_text :
    (∀ (s : String) (ta : TypeAssert) (err : Option GoError),
      TypeAsserter s = .ok (ta, err) →
        (ta.ValueType = "int" ∨ ta.ValueType = "float" ∨ ta.ValueType = "string") ∧
        ta.ValueType ≠ "nil" ∧ ta.ValueType ≠ "bool" ∧ ta.ValueType ≠ "json" ∧
        ta.ValueType ≠ "array" ∧
        (ta.ValueType ≠ "string" → ta.IsArray = false ∧ ta.IsJson = false)) ∧
    (∀ (row : List String) (tt : TypeTotals) (ctd : List TypeAssert),
      GetTypeTotals row = .ok (tt, ctd) →
        tt.Nil = 0 ∧ tt.Bool = 0 ∧ tt.JSON = 0 ∧ tt.Array = 0) := by
  constructor
  · intro s ta err h
    have hk : ta.ValueType = "int" ∨ ta.ValueType = "float" ∨ ta.ValueType = "string" := by
      have herr := typeAsserter_error_none s ta err h
      subst herr
      exact typeAsserter_valueType s ta h
    refine ⟨hk, ?_, ?_, ?_, ?_, ?_⟩
    · rcases hk with h1 | h1 | h1 <;> rw [h1] <;> decide
    · rcases hk with h1 | h1 | h1 <;> rw [h1] <;> decide
    · rcases hk with h1 | h1 | h1 <;> rw [h1] <;> decide
    · rcases hk with h1 | h1 | h1 <;> rw [h1] <;> decide
    · intro hns
      rcases coerce_cases s with ⟨v, hp, hc⟩ | ⟨f, hp, hc⟩ | hc
      · rw [typeAsserter_of_parseInt s v hp hc] at h
        cases h
        exact ⟨rfl, rfl⟩
      · obtain ⟨v, _, hv⟩ := typeAsserter_of_parseFloat s f hp hc
        rw [hv] at h
        cases h
        exact ⟨rfl, rfl⟩
      · obtain ⟨a, j, _, _, hta⟩ := typeAsserter_string s ta err hc h
        subst hta
        exact absurd rfl hns
  · intro row tt ctd h
    have hc : ∀ f ∈ row, Classifiable f := getTypeTotalsLoop_classifiable row {} [] _ h
    have hl := getTypeTotalsLoop_eq row {} [] hc
    unfold GetTypeTotals at h
    rw [hl] at h
    simp only [Except.ok.injEq, Prod.mk.injEq, List.nil_append] at h
    obtain ⟨h1, _⟩ := h
    obtain ⟨i1, i2, _, _, _, i6, i7⟩ := foldl_countType_counters row {}
    rw [← h1, i1, i2, i6, i7,
      kindCount_eq_zero "nil" row hc (by decide) (by decide) (by decide),
      kindCount_eq_zero "bool" row hc (by decide) (by decide) (by decide),
      kindCount_eq_zero "json" row hc (by decide) (by decide) (by decide),
      kindCount_eq_zero "array" row hc (by decide) (by decide) (by decide)]
    exact ⟨rfl, rfl, rfl, rfl⟩

/-! ## C18: numeric literals of the truthiness table -/

theorem unicodeToLower_preimage (c t : Char) (h : unicodeToLower c = t)
    (hi : t ≠ 'i') (hk : t ≠ 'k') :
    c = t ∨ (65 ≤ c.toNat ∧ c.toNat ≤ 90 ∧ Char.ofNat (c.toNat + 32) = t) := by
  unfold unicodeToLower at h
  split_ifs at h with h1 h2 h3
  · exact Or.inr ⟨h1.1, h1.2, h⟩
  · exact absurd h.symm hi
  · exact absurd h.symm hk
  · exact Or.inl h

theorem unicodeToLower_nonletter (c t : Char) (h : unicodeToLower c = t)
    (ht : t.toNat < 97) : c = t := by
  have hi : t ≠ 'i' := by rintro rfl; exact absurd ht (by decide)
  have hk : t ≠ 'k' := by rintro rfl; exact absurd ht (by decide)
  rcases unicodeToLower_preimage c t h hi hk with h1 | ⟨h1, h2, h3⟩
  · exact h1
  · exfalso
    have hc : Char.ofNat c.toNat = c := Char.ofNat_toNat c
    generalize c.toNat = k at h1 h2 h3
    subst h3
    interval_cases k <;> exact absurd ht (by decide)

theorem unicodeToLower_n (c : Char) (h : unicodeToLower c = 'n') : c = 'n' ∨ c = 'N' := by
  rcases unicodeToLower_preimage c 'n' h (by decide) (by decide) with h1 | ⟨h1, h2, h3⟩
  · exact Or.inl h1
  · right
    have hc : Char.ofNat c.toNat = c := Char.ofNat_toNat c
    generalize c.toNat = k at h1 h2 h3 hc
    interval_cases k <;> first | exact absurd h3 (by decide) | exact hc.symm

theorem unicodeToLower_a (c : Char) (h : unicodeToLower c = 'a') : c = 'a' ∨ c = 'A' := by
  rcases unicodeToLower_preimage c 'a' h (by decide) (by decide) with h1 | ⟨h1, h2, h3⟩
  · exact Or.inl h1
  · right
    have hc : Char.ofNat c.toNat = c := Char.ofNat_toNat c
    generalize c.toNat = k at h1 h2 h3 hc
    interval_cases k <;> first | exact absurd h3 (by decide) | exact hc.symm

theorem ToLower_data (s : String) : (ToLower s).data = s.data.map unicodeToLower := rfl

theorem map_eq_cons_split {α β : Type} (f : α → β) (l : List α) (t : β) (ts : List β)
    (h : l.map f = t :: ts) : ∃ c cs, l = c :: cs ∧ f c = t ∧ cs.map f = ts := by
  cases l with
  | nil => cases h
  | cons c cs =>
    simp only [List.map_cons, List.cons.injEq] at h
    exact ⟨c, cs, rfl, h.1, h.2⟩

theorem map_eq_nil_split {α β : Type} (f : α → β) (l : List α) (h : l.map f = []) :
    l = [] := by
  cases l with
  | nil => rfl
  | cons c cs => cases h

theorem ToLower_eq_zero (s : String) (h : ToLower s = "0") : s = "0" := by
  have hd : s.data.map unicodeToLower = ['0'] := by rw [← ToLower_data, h]
  obtain ⟨c, cs, h1, h2, h3⟩ := map_eq_cons_split _ _ _ _ hd
  have h4 := map_eq_nil_split _ _ h3
  have hc := unicodeToLower_nonletter c '0' h2 (by decide)
  apply String.ext
  rw [h1, h4, hc]

theorem ToLower_eq_one (s : String) (h : ToLower s = "1") : s = "1" := by
  have hd : s.data.map unicodeToLower = ['1'] := by rw [← ToLower_data, h]
  obtain ⟨c, cs, h1, h2, h3⟩ := map_eq_cons_split _ _ _ _ hd
  have h4 := map_eq_nil_split _ _ h3
  have hc := unicodeToLower_nonletter c '1' h2 (by decide)
  apply String.ext
  rw [h1, h4, hc]

theorem ToLower_eq_minus_zero (s : String) (h : ToLower s = "-0") : s = "-0" := by
  have hd : s.data.map unicodeToLower = ['-', '0'] := by rw [← ToLower_data, h]
  obtain ⟨c, cs, h1, h2, h3⟩ := map_eq_cons_split _ _ _ _ hd
  obtain ⟨d, ds, k1, k2, k3⟩ := map_eq_cons_split _ _ _ _ h3
  have k4 := map_eq_nil_split _ _ k3
  have hc := unicodeToLower_nonletter c '-' h2 (by decide)
  have hd2 := unicodeToLower_nonletter d '0' k2 (by decide)
  apply String.ext
  rw [h1, k1, k4, hc, hd2]

theorem ToLower_eq_empty (s : String) (h : ToLower s = "") : s = "" := by
  have hd : s.data.map unicodeToLower = [] := by rw [← ToLower_data, h]
  apply String.ext
  rw [map_eq_nil_split _ _ hd]

theorem ToLower_eq_nan (s : String) (h : ToLower s = "nan") :
    s ∈ ["nan", "naN", "nAn", "nAN", "Nan", "NaN", "NAn", "NAN"] := by
  have hd : s.data.map unicodeToLower = ['n', 'a', 'n'] := by rw [← ToLower_data, h]
  obtain ⟨c, cs, h1, h2, h3⟩ := map_eq_cons_split _ _ _ _ hd
  obtain ⟨d, ds, k1, k2, k3⟩ := map_eq_cons_split _ _ _ _ h3
  obtain ⟨e, es, j1, j2, j3⟩ := map_eq_cons_split _ _ _ _ k3
  have j4 := map_eq_nil_split _ _ j3
  have hs : s = String.mk [c, d, e] := by
    apply String.ext
    rw [h1, k1, j1, j4]
  rw [hs]
  rcases unicodeToLower_n c h2 with rfl | rfl <;>
  rcases unicodeToLower_a d k2 with rfl | rfl <;>
  rcases unicodeToLower_n e j2 with rfl | rfl <;> decide


set_option maxRecDepth 20000 in
theorem typeAsserter_int_literals (s : String) (h : ToLower s ∈ ["0", "-0", "1"]) :
    ∃ n, ParseInt s = .ok n ∧
      TypeAsserter s =
        .ok ({ Value := .str s, ConvertedValue := .int n, ValueType := "int",
               IsTruthy := (IsTruthyInt n).1, TruthyValue := (IsTruthyInt n).2 }, none) := by
  simp only [List.mem_cons, List.mem_singleton, List.not_mem_nil, or_false] at h
  rcases h with h | h | h
  · rw [ToLower_eq_zero s h]; exact ⟨0, by decide, by decide⟩
  · rw [ToLower_eq_minus_zero s h]; exact ⟨0, by decide, by decide⟩
  · rw [ToLower_eq_one s h]; exact ⟨1, by decide, by decide⟩

set_option maxRecDepth 20000 in
theorem typeAsserter_nan (s : String) (h : ToLower s = "nan") :
    TypeAsserter s =
      .ok ({ Value := .str s, ConvertedValue := .float .nan, ValueType := "float",
             IsTruthy := false, TruthyValue := false }, none) := by
  have hs := ToLower_eq_nan s h
  simp only [List.mem_cons, List.mem_singleton, List.not_mem_nil, or_false] at hs
  rcases hs with h | h | h | h | h | h | h | h <;> rw [h] <;> decide

set_option maxRecDepth 20000 in
/-- C18: a text whose lower-cased form is "0", "-0" or "1" is classified
"int" with the truthiness of `IsTruthyInt`; a text whose lower-cased form is
"nan" is classified "float" (NaN) with IsTruthy false; none of them is
classified "string"; so a "string" result with IsTruthy true has one of the
non-numeric literals as lower-cased form. -/
theorem numeric_literals_never_string :
    (∀ s : String, ToLower s ∈ ["0", "-0", "1"] →
      ∃ n, ParseInt s = .ok n ∧
        TypeAsserter s =
          .ok ({ Value := .str s, ConvertedValue := .int n, ValueType := "int",
                 IsTruthy := (IsTruthyInt n).1, TruthyValue := (IsTruthyInt n).2 }, none)) ∧
    (∀ s : String, ToLower s = "nan" →
      TypeAsserter s =
        .ok ({ Value := .str s, ConvertedValue := .float .nan, ValueType := "float",
               IsTruthy := false, TruthyValue := false }, none)) ∧
    (∀ (s : String) (ta : TypeAssert) (err : Option GoError),
      ToLower s ∈ ["0", "-0", "1", "nan"] → TypeAsserter s = .ok (ta, err) →
        ta.ValueType ≠ "string") ∧
    (∀ (s : String) (ta : TypeAssert) (err : Option GoError),
      TypeAsserter s = .ok (ta, err) → ta.ValueType = "string" → ta.IsTruthy = true →
        ToLower s ∈ ["true", "t", "false", "f", "null", "nil", "none", "undefined"]) := by
  have h3 : ∀ (s : String) (ta : TypeAssert) (err : Option GoError),
      ToLower s ∈ ["0", "-0", "1", "nan"] → TypeAsserter s = .ok (ta, err) →
        ta.ValueType ≠ "string" := by
    intro s ta err hs h
    by_cases hn : ToLower s = "nan"
    · rw [typeAsserter_nan s hn] at h
      cases h
      exact (by decide : ("float" : String) ≠ "string")
    · have hs2 : ToLower s ∈ ["0", "-0", "1"] := by
        simp only [List.mem_cons, List.mem_singleton, List.not_mem_nil, or_false] at hs ⊢
        rcases hs with h1 | h1 | h1 | h1
        · exact Or.inl h1
        · exact Or.inr (Or.inl h1)
        · exact Or.inr (Or.inr h1)
        · exact absurd h1 hn
      obtain ⟨n, _, hta⟩ := typeAsserter_int_literals s hs2
      rw [hta] at h
      cases h
      exact (by decide : ("int" : String) ≠ "string")
  refine ⟨typeAsserter_int_literals, typeAsserter_nan, h3, ?_⟩
  intro s ta err h hvt htr
  rcases coerce_cases s with ⟨v, hp, hc⟩ | ⟨f, hp, hc⟩ | hc
  · rw [typeAsserter_of_parseInt s v hp hc] at h
    cases h
    exact absurd hvt (by decide : ("int" : String) ≠ "string")
  · obtain ⟨v, _, hv⟩ := typeAsserter_of_parseFloat s f hp hc
    rw [hv] at h
    cases h
    exact absurd hvt (by decide : ("float" : String) ≠ "string")
  · obtain ⟨a, j, _, _, hta⟩ := typeAsserter_string s ta err hc h
    have h1 : (IsTruthyString s).1 = true := by rw [hta] at htr; exact htr
    rw [IsTruthyString_eq_table] at h1
    unfold truthyTable at h1
    have hnum : ToLower s ∉ ["0", "-0", "1", "nan"] := fun hm => h3 s ta err hm h hvt
    have hemp : ToLower s ≠ "" := by
      intro he
      rw [ToLower_eq_empty s he] at h
      have hp : TypeAsserter "" = .error .indexOutOfRange := by decide
      rw [hp] at h
      cases h
    simp only [List.mem_cons, List.mem_singleton, List.not_mem_nil, or_false, not_or] at hnum ⊢
    obtain ⟨n1, n2, n3, n4⟩ := hnum
    split_ifs at h1 with a1 a2
    · simp only [List.mem_cons, List.mem_singleton, List.not_mem_nil, or_false] at a1
      rcases a1 with a1 | a1 | a1
      · exact Or.inl a1
      · exact Or.inr (Or.inl a1)
      · exact absurd a1 n3
    · simp only [List.mem_cons, List.mem_singleton, List.not_mem_nil, or_false] at a2
      rcases a2 with a2 | a2 | a2 | a2 | a2 | a2 | a2 | a2 | a2 | a2
      · exact Or.inr (Or.inr (Or.inl a2))
      · exact Or.inr (Or.inr (Or.inr (Or.inl a2)))
      · exact absurd a2 hemp
      · exact absurd a2 n1
      · exact absurd a2 n2
      · exact Or.inr (Or.inr (Or.inr (Or.inr (Or.inl a2))))
      · exact Or.inr (Or.inr (Or.inr (Or.inr (Or.inr (Or.inl a2)))))
      · exact Or.inr (Or.inr (Or.inr (Or.inr (Or.inr (Or.inr (Or.inl a2))))))
      · exact Or.inr (Or.inr (Or.inr (Or.inr (Or.inr (Or.inr (Or.inr a2))))))
      · exact absurd a2 n4

theorem compareRow_prefix_true (frt : List TypeAssert) (j : Nat) (pre suf : List String)
    (h : compareRow frt j pre = .ok true) : compareRow frt j (pre ++ suf) = .ok true := by
  induction pre generalizing j with
  | nil => rw [compareRow_nil] at h; cases h
  | cons col rest ih =>
    rw [List.cons_append, compareRow]
    rw [compareRow] at h
    cases hta : TypeAsserter col with
    | error p => rw [hta] at h; cases h
    | ok p =>
      obtain ⟨ta, err⟩ := p
      rw [hta] at h
      simp only at h ⊢
      by_cases he : err.isNone = true
      · rw [if_pos he] at h ⊢
        cases hg : frt.get? j with
        | none => rw [hg] at h; cases h
        | some ref =>
          rw [hg] at h
          simp only at h ⊢
          by_cases hv : ta.ValueType ≠ ref.ValueType
          · rw [if_pos hv]
          · rw [if_neg hv] at h ⊢
            exact ih (j + 1) h
      · rw [if_neg he] at h ⊢
        exact ih (j + 1) h

/-- C19: for a non-empty sample of non-blank fields the reference profile
has `len(rows[0]) + 1` slots, the extra slot keeps the empty ValueType,
`IsFirstRowLabels` returns a boolean (no index out of range), which is true
as soon as a row of the window has more fields than row 0; on such a row the
inner loop returns true at column `len(rows[0])` at the latest, whatever the
columns after it hold. -/
theorem firstRowTypes_extra_slot (row0 : List String) (later : List (List String)) (w : Int)
    (hcls : ∀ row ∈ row0 :: later, ∀ f ∈ row, TrimSpace f ≠ "") :
    ∃ slots b, firstRowSlots row0 = .ok slots ∧
      (slots ++ [({} : TypeAssert)]).length = row0.length + 1 ∧
      (slots ++ [({} : TypeAssert)])[row0.length]? = some {} ∧
      ({} : TypeAssert).ValueType = "" ∧
      IsFirstRowLabels (row0 :: later) w = .ok b ∧
      ((∃ row ∈ later.take (w - 1).toNat, row0.length < row.length) → b = true) ∧
      (∀ row : List String, row0.length < row.length →
        (∀ f ∈ row.take (row0.length + 1), TrimSpace f ≠ "") →
        compareRow (slots ++ [({} : TypeAssert)]) 0 row = .ok true) := by
  have hc : ∀ row ∈ row0 :: later, ∀ f ∈ row, Classifiable f :=
    fun row hr f hf => classifiable_of_nonblank f (hcls row hr f hf)
  have h0 := hc row0 (List.mem_cons_self _ _)
  refine ⟨row0.map assertOf, _, firstRowSlots_eq row0 h0, ?_, ?_, rfl,
    IsFirstRowLabels_eq_any row0 later w hc, ?_, ?_⟩
  · simp
  · rw [List.getElem?_append_right (by simp)]
    simp
  · rintro ⟨row, hmem, hlt⟩
    rw [List.any_eq_true]
    exact ⟨row, hmem, (differsZ_map_iff row0 row).mpr (Or.inr hlt)⟩
  · intro row hlt hpre
    have hsplit : row = row.take (row0.length + 1) ++ row.drop (row0.length + 1) :=
      (List.take_append_drop _ _).symm
    rw [hsplit]
    apply compareRow_prefix_true
    rw [compareRow_eq_differsZ _ _ (fun f hf => classifiable_of_nonblank f (hpre f hf))]
    congr 1
    apply (differsZ_map_iff row0 _).mpr
    right
    rw [List.length_take]
    omega

set_option maxRecDepth 20000 in
/-- C19 witness: row0 = ["1"], row1 = ["2","3"], window 2; and a longer row
whose third column is blank, which the loop never reads. -/
theorem firstRowTypes_extra_slot_witness :
    compareRow [assertOf "1", {}] 0 ["2", "3", ""] = .ok true ∧
    ∃ slots b, firstRowSlots ["1"] = .ok slots ∧
      (slots ++ [({} : TypeAssert)]).length = ["1"].length + 1 ∧
      (slots ++ [({} : TypeAssert)])[["1"].length]? = some {} ∧
      ({} : TypeAssert).ValueType = "" ∧
      IsFirstRowLabels (["1"] :: [["2", "3"]]) 2 = .ok b ∧
      ((∃ row ∈ [["2", "3"]].take ((2 : Int) - 1).toNat, ["1"].length < row.length) →
        b = true) ∧
      (∀ row : List String, ["1"].length < row.length →
        (∀ f ∈ row.take (["1"].length + 1), TrimSpace f ≠ "") →
        compareRow (slots ++ [({} : TypeAssert)]) 0 row = .ok true) :=
  ⟨by decide, firstRowTypes_extra_slot ["1"] [["2", "3"]] 2 (by decide)⟩

/-! ## C11: round trip through the %v rendering -/

theorem parseUintLoop_ok_digits (ds : List Char) (n un : Nat)
    (h : parseUintLoop ds n = .ok un) : ds.all isDigit = true := by
  induction ds generalizing n with
  | nil => rfl
  | cons c cs ih =>
    rw [parseUintLoop] at h
    by_cases hc : isDigit c = true
    · simp only [hc, Bool.not_true, Bool.false_eq_true, if_false] at h
      split at h
      · cases h
      · split at h
        · cases h
        · simp [hc, ih _ h]
    · simp [hc] at h

theorem ParseInt_isIntegerLiteral (s : String) (n : Int) (h : ParseInt s = .ok n) :
    isIntegerLiteral s = true := by
  unfold ParseInt at h
  unfold isIntegerLiteral
  cases hs : s.data with
  | nil => rw [hs] at h; cases h
  | cons c rest =>
    rw [hs] at h
    simp only at h ⊢
    generalize hb : (if (c == '+' || c == '-') = true then rest else c :: rest) = body at h ⊢
    unfold ParseUint at h
    by_cases hnil : body = []
    · simp [hnil] at h
    · simp only [hnil, if_false] at h
      cases hu : parseUintLoop body 0 with
      | error e => rw [hu] at h; cases h
      | ok un =>
        simp [hnil, parseUintLoop_ok_digits body 0 un hu]

theorem digitsValue_lt (ds : List Char) (a : Nat) (h : ds.all isDigit = true) :
    digitsValue a ds < (a + 1) * 10 ^ ds.length := by
  induction ds generalizing a with
  | nil => rw [digitsValue_nil]; simp
  | cons c cs ih =>
    simp only [List.all_cons, Bool.and_eq_true] at h
    rw [digitsValue_cons]
    have h1 := ih (a * 10 + digitVal c) h.2
    have hc : digitVal c ≤ 9 := by
      have := h.1
      simp only [isDigit, Bool.and_eq_true, decide_eq_true_eq] at this
      unfold digitVal; omega
    have : (a * 10 + digitVal c + 1) * 10 ^ cs.length ≤ (a + 1) * 10 ^ (c :: cs).length := by
      rw [List.length_cons, pow_succ]
      have : a * 10 + digitVal c + 1 ≤ (a + 1) * 10 := by omega
      calc (a * 10 + digitVal c + 1) * 10 ^ cs.length
          ≤ ((a + 1) * 10) * 10 ^ cs.length := Nat.mul_le_mul_right _ this
        _ = (a + 1) * (10 ^ cs.length * 10) := by ring
    omega

theorem ParseInt_of_isIntegerLiteral (s : String) (h : isIntegerLiteral s = true)
    (hlen : s.data.length ≤ 18) : ∃ n, ParseInt s = .ok n := by
  unfold isIntegerLiteral at h
  unfold ParseInt
  cases hs : s.data with
  | nil => rw [hs] at h; cases h
  | cons c rest =>
    rw [hs] at h hlen
    simp only at h ⊢
    have hbl : (if (c == '+' || c == '-') = true then rest else c :: rest).length ≤ 18 := by
      split
      · simp at hlen; omega
      · exact hlen
    generalize hb : (if (c == '+' || c == '-') = true then rest else c :: rest) = body at h hbl ⊢
    simp only [Bool.and_eq_true, decide_eq_true_eq] at h
    have hv := digitsValue_lt body 0 h.2
    have hv2 : digitsValue 0 body < 10 ^ 18 := by
      have : (10 : Nat) ^ body.length ≤ 10 ^ 18 := Nat.pow_le_pow_right (by norm_num) hbl
      omega
    have hu : ParseUint body = .ok (digitsValue 0 body) := by
      unfold ParseUint
      rw [if_neg h.1]
      exact parseUintLoop_digits body 0 h.2 (by omega)
    rw [hu]
    simp only
    have h63 : ¬ (digitsValue 0 body ≥ 2 ^ 63) := by omega
    have h63b : ¬ (digitsValue 0 body > 2 ^ 63) := by omega
    have e1 : ¬ (¬c = '-' ∧ 9223372036854775808 ≤ digitsValue 0 body) := by
      rintro ⟨_, h2⟩; exact h63 h2
    have e2 : ¬ (c = '-' ∧ 9223372036854775808 < digitsValue 0 body) := by
      rintro ⟨_, h2⟩; exact h63b h2
    simp only [Bool.not_eq_true', Bool.and_eq_true, beq_iff_eq, decide_eq_true_eq,
      beq_eq_false_iff_ne, ne_eq, ge_iff_le, gt_iff_lt, Nat.reducePow]
    rw [if_neg e1, if_neg e2]
    exact ⟨_, rfl⟩

theorem isIntegerLiteral_chars (l : List Char) (h : isIntegerLiteral (String.mk l) = true) :
    ∀ x ∈ l, isDigit x = true ∨ x = '+' ∨ x = '-' := by
  unfold isIntegerLiteral at h
  cases l with
  | nil => cases h
  | cons c rest =>
    simp only at h
    intro x hx
    by_cases hc : (c == '+' || c == '-') = true
    · rw [if_pos hc] at h
      simp only [Bool.and_eq_true, List.all_eq_true] at h
      rcases List.mem_cons.1 hx with rfl | hx
      · simp only [Bool.or_eq_true, beq_iff_eq] at hc
        exact Or.inr hc
      · exact Or.inl (h.2 x hx)
    · rw [if_neg hc] at h
      simp only [Bool.and_eq_true, List.all_eq_true] at h
      exact Or.inl (h.2 x hx)

theorem not_isIntegerLiteral_of_mem (l : List Char) (x : Char) (hx : x ∈ l)
    (h1 : isDigit x = false) (h2 : x ≠ '+') (h3 : x ≠ '-') :
    isIntegerLiteral (String.mk l) = false := by
  cases h : isIntegerLiteral (String.mk l) with
  | false => rfl
  | true =>
    rcases isIntegerLiteral_chars l h x hx with h | h | h
    · rw [h1] at h; cases h
    · exact absurd h h2
    · exact absurd h h3

theorem mem_fmtE (neg : Bool) (d : List Char) (dp : Int) : 'e' ∈ fmtE neg d dp := by
  unfold fmtE
  simp

theorem mem_fmtFixed (neg : Bool) (d : List Char) (dp : Int) (h : dp < d.length) :
    '.' ∈ fmtFixed neg d dp := by
  unfold fmtFixed
  simp [h]

theorem fmtFixed_length (neg : Bool) (d : List Char) (dp : Int) (h : ¬ dp < d.length)
    (h6 : dp ≤ 6) : (fmtFixed neg d dp).length ≤ 7 := by
  unfold fmtFixed
  rw [if_neg h]
  simp only [List.append_nil, List.length_append]
  have h1 : (if neg = true then ['-'] else []).length ≤ 1 := by cases neg <;> simp
  have h2 : (if 0 < dp then d.take dp.toNat ++ List.replicate (dp.toNat - d.length) '0'
      else ['0']).length ≤ 6 := by
    split
    · simp only [List.length_append, List.length_take, List.length_replicate]
      omega
    · simp
  omega

theorem fmtG_integerLiteral_length (neg : Bool) (d : List Char) (dp : Int)
    (h : isIntegerLiteral (fmtG neg d dp) = true) : (fmtG neg d dp).data.length ≤ 7 := by
  unfold fmtG at h ⊢
  by_cases he : dp - 1 < -4 ∨ 6 ≤ dp - 1
  · rw [if_pos he] at h
    rw [not_isIntegerLiteral_of_mem _ 'e' (mem_fmtE neg d dp) (by decide) (by decide)
      (by decide)] at h
    cases h
  · rw [if_neg he] at h ⊢
    by_cases hf : dp < d.length
    · rw [not_isIntegerLiteral_of_mem _ '.' (mem_fmtFixed neg d dp hf) (by decide) (by decide)
        (by decide)] at h
      cases h
    · exact fmtFixed_length neg d dp hf (by omega)

theorem accepts_parse (v : Float64) (neg : Bool) (c : List Char × Int)
    (h : accepts v neg c = true) : ∃ w, ParseFloat (fmtG neg c.1 c.2) = .ok w := by
  unfold accepts at h
  cases hp : ParseFloat (fmtG neg c.1 c.2) with
  | error e => rw [hp] at h; cases h
  | ok w => exact ⟨w, rfl⟩

theorem shortestLoop_accepts (v : Float64) (neg : Bool) (n d : Nat) (dp : Int)
    (fuel p : Nat) (c : List Char × Int) (h : shortestLoop v neg n d dp fuel p = some c) :
    accepts v neg c = true := by
  induction fuel generalizing p with
  | zero => rw [shortestLoop] at h; cases h
  | succ k ih =>
    rw [shortestLoop] at h
    split at h
    · rename_i hb
      simp only [Bool.and_eq_true] at hb
      split at h
      · cases h; exact hb.1
      · split at h
        · cases h; exact hb.2
        · split at h
          · cases h; exact hb.1
          · cases h; exact hb.2
    · split at h
      · rename_i hb; cases h; exact hb
      · split at h
        · rename_i hb; cases h; exact hb
        · exact ih _ h

theorem mem_formatF (f : Float64) (hf : ∃ neg m e, f = .finite neg m e) :
    '.' ∈ (formatF f).data := by
  obtain ⟨neg, m, e, rfl⟩ := hf
  unfold formatF
  simp

theorem formatFloatV_spec (f : Float64) (hwf : f.WF) :
    (∃ w, ParseFloat (formatFloatV f) = .ok w) ∧
    (isIntegerLiteral (formatFloatV f) = true → (formatFloatV f).data.length ≤ 7) := by
  cases f with
  | nan => exact ⟨⟨.nan, by decide⟩, by decide⟩
  | inf neg =>
    cases neg
    · exact ⟨⟨.inf false, by decide⟩, by decide⟩
    · exact ⟨⟨.inf true, by decide⟩, by decide⟩
  | finite neg m e =>
    unfold formatFloatV
    simp only
    by_cases hm : m = 0
    · rw [if_pos hm]
      cases neg
      · exact ⟨⟨.finite false 0 0, by decide⟩, by decide⟩
      · exact ⟨⟨.finite true 0 0, by decide⟩, by decide⟩
    · rw [if_neg hm]
      cases hs : shortestLoop (.finite neg m e) neg (m * 2 ^ e.toNat) (2 ^ (-e).toNat)
          (decimalPoint (m * 2 ^ e.toNat) (2 ^ (-e).toNat)) 17 1 with
      | some c =>
        simp only
        exact ⟨accepts_parse _ _ _ (shortestLoop_accepts _ _ _ _ _ _ _ _ hs),
          fmtG_integerLiteral_length neg c.1 c.2⟩
      | none =>
        simp only
        refine ⟨ParseFloat_formatF_ok _ hwf, fun h => ?_⟩
        rw [not_isIntegerLiteral_of_mem _ '.' (mem_formatF _ ⟨neg, m, e, rfl⟩) (by decide)
          (by decide) (by decide)] at h
        cases h

theorem typeAsserter_formatFloatV (f : Float64) (hwf : f.WF) :
    ∃ ta, TypeAsserter (formatFloatV f) = .ok (ta, none) ∧
      ta.ValueType = if isIntegerLiteral (formatFloatV f) = true then "int" else "float" := by
  obtain ⟨⟨w, hw⟩, hlen⟩ := formatFloatV_spec f hwf
  by_cases hi : isIntegerLiteral (formatFloatV f) = true
  · rw [if_pos hi]
    obtain ⟨n, hn⟩ := ParseInt_of_isIntegerLiteral _ hi (by have := hlen hi; omega)
    exact ⟨_, typeAsserter_of_parseInt _ n hn (coerce_of_parseInt _ n hn), rfl⟩
  · rw [if_neg hi]
    cases hp : ParseInt (formatFloatV f) with
    | ok n => exact absurd (ParseInt_isIntegerLiteral _ n hp) hi
    | error e =>
      obtain ⟨v, _, hv⟩ := typeAsserter_of_parseFloat _ w hw (coerce_of_parseFloat _ e w hp hw)
      exact ⟨_, hv, rfl⟩

/-- C11 (as amended): for every text that `TypeAsserter` classifies as "int"
or "float", `TypeAsserter` returns, without error, on the `%v` rendering of
the ConvertedValue. The ValueType is "int" again for an "int"; for a "float"
it is "float" again unless the rendering is an integer literal (a sign and
digits only, no fraction and no exponent), and then it is "int". -/
theorem typeAsserter_round_trip (s : String) (ta : TypeAssert)
    (h : TypeAsserter s = .ok (ta, none))
    (hk : ta.ValueType = "int" ∨ ta.ValueType = "float") :
    ∃ ta2, TypeAsserter (formatV ta.ConvertedValue) = .ok (ta2, none) ∧
      ta2.ValueType =
        if ta.ValueType = "float" ∧ isIntegerLiteral (formatV ta.ConvertedValue) = true
        then "int" else ta.ValueType := by
  rcases coerce_cases s with ⟨v, hp, hc⟩ | ⟨f, hp, hc⟩ | hc
  · rw [typeAsserter_of_parseInt s v hp hc] at h
    cases h
    obtain ⟨hlo, hhi⟩ := ParseInt_range s v hp
    have hp2 := ParseInt_formatInt v hlo hhi
    refine ⟨_, typeAsserter_of_parseInt _ v hp2 (coerce_of_parseInt _ v hp2), ?_⟩
    have hne : ¬ (("int" : String) = "float" ∧
        isIntegerLiteral (formatV (GoValue.int v)) = true) := by
      rintro ⟨h1, _⟩
      exact absurd h1 (by decide)
    simp only
    rw [if_neg hne]
  · obtain ⟨v, hv, hta⟩ := typeAsserter_of_parseFloat s f hp hc
    rw [hta] at h
    cases h
    obtain ⟨ta2, h1, h2⟩ := typeAsserter_formatFloatV v (ParseFloat_wf _ v hv)
    refine ⟨ta2, h1, ?_⟩
    rw [h2]
    simp only [formatV, true_and]
  · obtain ⟨a, j, _, _, hta⟩ := typeAsserter_string s ta none hc h
    subst hta
    rcases hk with hk | hk
    · exact absurd hk (by decide : ("string" : String) ≠ "int")
    · exact absurd hk (by decide : ("string" : String) ≠ "float")

set_option maxRecDepth 20000 in
/-- C11 witness: the amended statement at "2.5", a "float" whose `%v`
rendering has a fraction. -/
theorem typeAsserter_round_trip_witness :
    TypeAsserter "2.5" =
      .ok ({ Value := .str "2.5", ConvertedValue := .float (.finite false 5629499534213120 (-51)),
             ValueType := "float" }, none) ∧
    formatV (.float (.finite false 5629499534213120 (-51))) = "2.5" ∧
    ∃ ta2, TypeAsserter (formatV (.float (.finite false 5629499534213120 (-51)))) =
        .ok (ta2, none) ∧
      ta2.ValueType =
        if ("float" : String) = "float" ∧
            isIntegerLiteral (formatV (.float (.finite false 5629499534213120 (-51)))) = true
        then "int" else "float" :=
  ⟨by decide, by decide,
   typeAsserter_round_trip "2.5"
     { Value := .str "2.5", ConvertedValue := .float (.finite false 5629499534213120 (-51)),
       ValueType := "float" }
     (by decide) (Or.inr rfl)⟩

set_option maxRecDepth 20000 in
/-- C11 counterexample: "1.0" is classified "float" with the ConvertedValue
1.0; `%v` renders that float as "1", and "1" is classified "int". -/
theorem typeAsserter_round_trip_float_to_int :
    (TypeAsserter "1.0").map (fun r => (r.1.ValueType, r.1.ConvertedValue, r.2)) =
      .ok ("float", .float (.finite false 4503599627370496 (-52)), none) ∧
    formatV (.float (.finite false 4503599627370496 (-52))) = "1" ∧
    (TypeAsserter "1").map (fun r => (r.1.ValueType, r.2)) = .ok ("int", none) := by
  decide

end CsvAnalyzer
